import Mathlib

/-!
# Verification of the Pocket-Inferer ACE-to-Prolog translator

A shallow embedding of the translator in `src/ace_prolog_parser.py`
(the enhanced parser, used by the tests via `src.ace_prolog_parser`)
and of the legacy module `ace_prolog_parser.py` at the repository root.

Python strings are modelled as `List Char` over the ASCII fragment the
program manipulates; `re.match` calls are translated into deterministic
matching functions that realise the greedy, leftmost semantics of each
concrete pattern (the `.` wildcard never matches a newline, `$` also
matches just before a final newline, greedy groups take the longest
feasible prefix).
-/

/-- Build a character-list string from a literal. -/
def str (s : String) : List Char := s.data

/-- Python whitespace (`str.strip`, `\s`), ASCII fragment. -/
def isPyWs (c : Char) : Bool :=
  c == ' ' || c == '\t' || c == '\n' || c == '\r' ||
  c == Char.ofNat 11 || c == Char.ofNat 12

/-- Characters collapsed by `normalize_entity`: whitespace or hyphen (`[\s\-]`). -/
def isWsHyphen (c : Char) : Bool := isPyWs c || c == '-'

/-- ASCII uppercase letter. -/
def isUpperAZ (c : Char) : Bool := 'A' ≤ c && c ≤ 'Z'

/-- ASCII lowercase letter. -/
def isLowerAZ (c : Char) : Bool := 'a' ≤ c && c ≤ 'z'

/-- ASCII digit (`\d`). -/
def isDigitC (c : Char) : Bool := '0' ≤ c && c ≤ '9'

/-- ASCII letter (`[a-zA-Z]`). -/
def isAsciiAlpha (c : Char) : Bool := isLowerAZ c || isUpperAZ c

/-- The class `[a-zA-Z0-9_]`. -/
def wordChar (c : Char) : Bool := isAsciiAlpha c || isDigitC c || c == '_'

/-- The class `[a-zA-Z0-9_-]`. -/
def wordHyphenChar (c : Char) : Bool := wordChar c || c == '-'

/-- Models `str.lower` on one character (ASCII fragment). -/
def pyLower (c : Char) : Char :=
  if isUpperAZ c then Char.ofNat (c.toNat + 32) else c

/-- Models `str.upper` on one character (ASCII fragment). -/
def pyUpper (c : Char) : Char :=
  if isLowerAZ c then Char.ofNat (c.toNat - 32) else c

/-- Models `str.lower`. -/
def lowerL (s : List Char) : List Char := s.map pyLower

/-- Models `str.upper`. -/
def upperL (s : List Char) : List Char := s.map pyUpper

/-- Models `str.strip()`: remove leading and trailing whitespace. -/
def stripL (s : List Char) : List Char :=
  ((s.dropWhile isPyWs).reverse.dropWhile isPyWs).reverse

/-- Models `str.rstrip(c)`: remove every trailing occurrence of `c`. -/
def rstripAll (c : Char) (s : List Char) : List Char :=
  (s.reverse.dropWhile (· == c)).reverse

/-- Models `pat in s` (Python substring test). -/
def strIn (pat : List Char) : List Char → Bool
  | [] => pat.isEmpty
  | c :: rest => pat.isPrefixOf (c :: rest) || strIn pat rest

/-- No newline in the string (the region a `.+` group may cover). -/
def nlFree (s : List Char) : Bool := s.all (fun c => c != '\n')

/-- Models `str.replace('-', '_')`. -/
def replHyphen (s : List Char) : List Char :=
  s.map (fun c => if c == '-' then '_' else c)

/-- Models `', '.join` / `'; '.join`. -/
def joinSep (sep : List Char) : List (List Char) → List Char
  | [] => []
  | [x] => x
  | x :: y :: rest => x ++ sep ++ joinSep sep (y :: rest)

/-- One step of `re.sub(r'[\s\-]+', '_', s)`: the flag records whether the
previous character belonged to a whitespace/hyphen run. -/
def collapseAux : Bool → List Char → List Char
  | _, [] => []
  | inRun, c :: rest =>
      if isWsHyphen c then
        if inRun then collapseAux true rest
        else '_' :: collapseAux true rest
      else c :: collapseAux false rest

/-- Models `re.sub(r'[\s\-]+', '_', s)`: each maximal run of whitespace/hyphens
becomes a single underscore. -/
def collapseWsHyphen (s : List Char) : List Char := collapseAux false s

/-- Models `ACEToPrologParser.normalize_entity`: strip, lowercase, collapse
whitespace/hyphen runs to `_`, then lowercase the first character if it is
still uppercase (dead after `lower()`, kept faithfully). -/
def normalize_entity (s : List Char) : List Char :=
  let e := collapseWsHyphen (lowerL (stripL s))
  match e with
  | [] => []
  | c :: rest => if isUpperAZ c then pyLower c :: rest else c :: rest

/-! ## Greedy matchers for the extraction regexes of the enhanced parser -/

/-- Models `re.match(r'^(.+)<sep>(.+)', s)`: the first group is greedy, so the
separator is taken at the last feasible position; the second group is the
maximal newline-free run after it.  Returns the two groups. -/
def splitLastDP (sep s : List Char) : Option (List Char × List Char) :=
  (List.range (s.length + 1)).reverse.findSome? (fun i =>
    let a := s.take i
    let rest := s.drop i
    if !a.isEmpty && nlFree a && sep.isPrefixOf rest then
      let b := (rest.drop sep.length).takeWhile (· != '\n')
      if !b.isEmpty then some (a, b) else none
    else none)

/-- Variant of `splitLastDP` for a pattern compiled with `re.IGNORECASE` (the separator
literal is given lowercased, the groups keep the original text). -/
def splitLastDPci (sep s : List Char) : Option (List Char × List Char) :=
  (List.range (s.length + 1)).reverse.findSome? (fun i =>
    let a := s.take i
    let rest := s.drop i
    if !a.isEmpty && nlFree a && sep.isPrefixOf (lowerL rest) then
      let b := (rest.drop sep.length).takeWhile (· != '\n')
      if !b.isEmpty then some (a, b) else none
    else none)

/-- Models `re.match(r'^(.+)<sep>([a-zA-Z][a-zA-Z0-9_]*)', s)`. -/
def splitLastSepIdent (sep s : List Char) : Option (List Char × List Char) :=
  (List.range (s.length + 1)).reverse.findSome? (fun i =>
    let a := s.take i
    let rest := s.drop i
    if !a.isEmpty && nlFree a && sep.isPrefixOf rest then
      match rest.drop sep.length with
      | [] => none
      | c :: cs => if isAsciiAlpha c then some (a, c :: cs.takeWhile wordChar) else none
    else none)

/-- Models `re.match(r'^(.+) (is|has) (.+)', s)`: returns (subject, verb, object). -/
def splitLastVerb (s : List Char) : Option (List Char × List Char × List Char) :=
  (List.range (s.length + 1)).reverse.findSome? (fun i =>
    let a := s.take i
    let rest := s.drop i
    if !a.isEmpty && nlFree a then
      [str "is", str "has"].findSome? (fun v =>
        if (' ' :: v ++ [' ']).isPrefixOf rest then
          let b := (rest.drop (v.length + 2)).takeWhile (· != '\n')
          if !b.isEmpty then some (a, v, b) else none
        else none)
    else none)

/-- The comparison alternatives of the children-count condition pattern. -/
def cmpWords : List (List Char) :=
  [str "more than", str "fewer than", str "at least", str "exactly"]

/-- Models `re.match(r'^(.+) has (more than|fewer than|at least|exactly) (\d+) (child|children)', s)`:
returns (subject, comparison, count). -/
def matchChildrenCond (s : List Char) : Option (List Char × List Char × List Char) :=
  (List.range (s.length + 1)).reverse.findSome? (fun i =>
    let a := s.take i
    let rest := s.drop i
    if !a.isEmpty && nlFree a && (str " has ").isPrefixOf rest then
      let r2 := rest.drop 5
      cmpWords.findSome? (fun cmp =>
        if (cmp ++ [' ']).isPrefixOf r2 then
          let r3 := r2.drop (cmp.length + 1)
          let ds := r3.takeWhile isDigitC
          if !ds.isEmpty && (' ' :: str "child").isPrefixOf (r3.drop ds.length) then
            some (a, cmp, ds)
          else none
        else none)
    else none)

/-- Models `re.match(r'^(.+) has (German|EU|non.EU) citizenship', s)`: returns
(subject, matched citizenship text); the `.` of `non.EU` matches any
non-newline character. -/
def matchCitizCond (s : List Char) : Option (List Char × List Char) :=
  (List.range (s.length + 1)).reverse.findSome? (fun i =>
    let a := s.take i
    let rest := s.drop i
    if !a.isEmpty && nlFree a && (str " has ").isPrefixOf rest then
      let r2 := rest.drop 5
      if (str "German citizenship").isPrefixOf r2 then some (a, str "German")
      else if (str "EU citizenship").isPrefixOf r2 then some (a, str "EU")
      else
        match r2 with
        | 'n' :: 'o' :: 'n' :: c :: r3 =>
            if c != '\n' && (str "EU citizenship").isPrefixOf r3 then
              some (a, 'n' :: 'o' :: 'n' :: c :: str "EU")
            else none
        | _ => none
    else none)

/-- Leftmost match of `\s+<word>\s+` (case-insensitive word): returns the
text before the match and the text after it. -/
def findWsWord (w : List Char) (s : List Char) : Option (List Char × List Char) :=
  (List.range s.length).findSome? (fun i =>
    let rest := s.drop i
    let run := rest.takeWhile isPyWs
    if run.isEmpty then none
    else
      let r2 := rest.drop run.length
      if w.isPrefixOf (lowerL r2) then
        let r3 := r2.drop w.length
        let run2 := r3.takeWhile isPyWs
        if run2.isEmpty then none
        else some (s.take i, r3.drop run2.length)
      else none)

/-- Fuel-indexed worker for `re.split(r'\s+<word>\s+', s, flags=re.IGNORECASE)`;
each step consumes at least one character, so `length + 1` fuel suffices. -/
def reSplitWordAux (w : List Char) : Nat → List Char → List (List Char)
  | 0, s => [s]
  | fuel + 1, s =>
      match findWsWord w s with
      | none => [s]
      | some (a, rest) => a :: reSplitWordAux w fuel rest

/-- Models `re.split(r'\s+<word>\s+', s, flags=re.IGNORECASE)`. -/
def reSplitWord (w s : List Char) : List (List Char) :=
  reSplitWordAux w (s.length + 1) s

/-- Models `re.match(r'^(.+) is eligible for (.+) if (.+)', s, re.IGNORECASE)`:
returns (entity, benefit, conditions); both `.+` groups are greedy. -/
def matchEligibleRule (s : List Char) : Option (List Char × List Char × List Char) :=
  (List.range (s.length + 1)).reverse.findSome? (fun i =>
    let a := s.take i
    let rest := s.drop i
    if !a.isEmpty && nlFree a && (str " is eligible for ").isPrefixOf (lowerL rest) then
      match splitLastDPci (str " if ") (rest.drop 17) with
      | some (b, c) => some (a, b, c)
      | none => none
    else none)

/-! ## The enhanced rule translator (`src/ace_prolog_parser.py`) -/

/-- Python truthiness of an `Optional[str]`: `None` and `""` are falsy. -/
def optTruthy : Option (List Char) → Bool
  | none => false
  | some s => !s.isEmpty

/-- Models `ACEToPrologParser._parse_condition` (the original condition parsing). -/
def parseCondition (c var : List Char) : Option (List Char) :=
  match splitLastDP (str " likes ") c with
  | some (subj0, obj0) =>
      let subj := stripL subj0
      let obj := normalize_entity obj0
      if upperL subj == var then
        some (str "likes(" ++ var ++ str ", " ++ obj ++ str ")")
      else
        some (str "likes(" ++ normalize_entity subj ++ str ", " ++ obj ++ str ")")
  | none =>
  match splitLastDP (str " is ") c with
  | some (subj0, prop0) =>
      let subj := stripL subj0
      let prop := normalize_entity prop0
      if upperL subj == var then
        some (prop ++ str "(" ++ var ++ str ")")
      else
        some (prop ++ str "(" ++ normalize_entity subj ++ str ")")
  | none => none

/-- Employment-status lexicon of `_parse_single_condition` (pre-substitution). -/
def empWords : List (List Char) :=
  [str "employed", str "unemployed", str "self-employed", str "retired"]

/-- Marital-status lexicon of `_parse_single_condition`. -/
def marWords : List (List Char) :=
  [str "married", str "single", str "divorced", str "widowed"]

/-- Does the subject token stand for the clause variable?
(`subject.upper() == var_name or subject.lower() == var_name.lower()`). -/
def subjIsVar (subj var : List Char) : Bool :=
  upperL subj == var || lowerL subj == lowerL var

/-- Models `ACEToPrologParser._parse_single_condition`. -/
def parseSingleCondition (c var : List Char) : Option (List Char) :=
  match matchChildrenCond c with
  | some (subj0, cmp, count) =>
      let subj := stripL subj0
      if subjIsVar subj var then
        if cmp == str "more than" then
          some (str "children_count(" ++ var ++ str ", Count), Count > " ++ count)
        else if cmp == str "fewer than" then
          some (str "children_count(" ++ var ++ str ", Count), Count < " ++ count)
        else if cmp == str "at least" then
          some (str "children_count(" ++ var ++ str ", Count), Count >= " ++ count)
        else if cmp == str "exactly" then
          some (str "children_count(" ++ var ++ str ", Count), Count =:= " ++ count)
        else parseCondition c var
      else parseCondition c var
  | none =>
  match matchCitizCond c with
  | some (subj0, cit) =>
      let subj := stripL subj0
      if subjIsVar subj var then
        some (str "citizenship(" ++ var ++ str ", " ++ lowerL (replHyphen cit) ++ str ")")
      else parseCondition c var
  | none =>
  match splitLastDP (str " lives in ") c with
  | some (subj0, loc0) =>
      let subj := stripL subj0
      let loc := normalize_entity loc0
      if subjIsVar subj var then
        some (str "residence(" ++ var ++ str ", " ++ loc ++ str ")")
      else parseCondition c var
  | none =>
  match splitLastVerb c with
  | some (subj0, verb, obj0) =>
      let subj := stripL subj0
      let obj := stripL obj0
      if subjIsVar subj var then
        if verb == str "is" then
          if empWords.contains obj then
            some (str "employment_status(" ++ var ++ str ", " ++ replHyphen obj ++ str ")")
          else if marWords.contains obj then
            some (str "marital_status(" ++ var ++ str ", " ++ obj ++ str ")")
          else
            some (normalize_entity obj ++ str "(" ++ var ++ str ")")
        else parseCondition c var
      else parseCondition c var
  | none => parseCondition c var

/-- Models `ACEToPrologParser._parse_complex_conditions`: AND conditions first,
then OR, else a single condition; in the AND/OR branches the parts that
fail to translate are silently skipped and the branch fails only when no
part translates. -/
def parseComplexConditions (cond var : List Char) : Option (List Char) :=
  if strIn (str " and ") (lowerL cond) then
    let parts := reSplitWord (str "and") cond
    let parsed := parts.filterMap (fun p =>
      let r := parseSingleCondition (stripL p) var
      if optTruthy r then r else none)
    if parsed.isEmpty then none else some (joinSep (str ", ") parsed)
  else if strIn (str " or ") (lowerL cond) then
    let parts := reSplitWord (str "or") cond
    let parsed := parts.filterMap (fun p =>
      let r := parseSingleCondition (stripL p) var
      if optTruthy r then r else none)
    if parsed.isEmpty then none else some (joinSep (str "; ") parsed)
  else parseSingleCondition cond var

/-- Models `ACEToPrologParser.ace_to_prolog_rule` (enhanced parser). -/
def ace_to_prolog_rule (s : List Char) : Option (List Char) :=
  let r := rstripAll '.' (stripL s)
  match matchEligibleRule r with
  | some (e0, b0, c0) =>
      let entity := stripL e0
      let benefit := stripL b0
      let conditions := stripL c0
      let var := if [str "X", str "Y", str "Z"].contains (upperL entity)
                 then upperL entity else str "X"
      let concl := str "eligible(" ++ var ++ str ", " ++ normalize_entity benefit ++ str ")"
      let body := parseComplexConditions conditions var
      if optTruthy body then some (concl ++ str " :- " ++ body.getD []) else none
  | none =>
      if strIn (str " if ") (lowerL r) then
        match reSplitWord (str "if") r with
        | [concl0, cond0] =>
            let conclusion := stripL concl0
            let condition := stripL cond0
            match splitLastSepIdent (str " is ") conclusion with
            | some (subj, prop) =>
                let var := upperL subj
                let conclP := normalize_entity prop ++ str "(" ++ var ++ str ")"
                let body := parseComplexConditions condition var
                if optTruthy body then some (conclP ++ str " :- " ++ body.getD []) else none
            | none => none
        | _ => none
      else none

/-! ## The legacy parser module (`ace_prolog_parser.py` at the repository root) -/

/-- Remove the final newline, if any: the position where `$` may also match. -/
def dollarStrip (s : List Char) : List Char :=
  if s.getLast? == some '\n' then s.dropLast else s

/-- A full `[a-zA-Z][a-zA-Z0-9_]*` token. -/
def isIdentTok (s : List Char) : Bool :=
  match s with
  | [] => false
  | c :: rest => isAsciiAlpha c && rest.all wordChar

namespace Legacy

/-- Models `re.match(r'^([A-Za-z])<sep>([a-zA-Z][a-zA-Z0-9_]*)$', s, re.IGNORECASE)`
with the separator literal given lowercased. -/
def matchVarSep (sep : List Char) (s0 : List Char) : Option (Char × List Char) :=
  match dollarStrip s0 with
  | v :: rest =>
      if isAsciiAlpha v && sep.isPrefixOf (lowerL rest) then
        let w := rest.drop sep.length
        if isIdentTok w then some (v, w) else none
      else none
  | [] => none

/-- Models `re.match(r'^([A-Za-z][a-zA-Z0-9_]*)<sep>([a-zA-Z][a-zA-Z0-9_]*)$', s, re.IGNORECASE)`. -/
def matchEntitySep (sep : List Char) (s0 : List Char) : Option (List Char × List Char) :=
  match dollarStrip s0 with
  | c :: rest =>
      if isAsciiAlpha c then
        let run := rest.takeWhile wordChar
        let r2 := rest.drop run.length
        if sep.isPrefixOf (lowerL r2) then
          let w2 := r2.drop sep.length
          if isIdentTok w2 then some (c :: run, w2) else none
        else none
      else none
  | [] => none

/-- Models `ACEToPrologParser._convert_ace_expression_to_prolog` (legacy module):
variable patterns first, then entity patterns. -/
def convertExpr (e0 : List Char) : Option (List Char) :=
  let e := stripL e0
  match matchVarSep (str " is ") e with
  | some (v, prop) => some (lowerL prop ++ str "(" ++ [pyUpper v] ++ str ")")
  | none =>
  match matchVarSep (str " likes ") e with
  | some (v, obj) => some (str "likes(" ++ [pyUpper v] ++ str ", " ++ lowerL obj ++ str ")")
  | none =>
  match matchEntitySep (str " is ") e with
  | some (ent, prop) => some (lowerL prop ++ str "(" ++ lowerL ent ++ str ")")
  | none =>
  match matchEntitySep (str " likes ") e with
  | some (ent, obj) => some (str "likes(" ++ lowerL ent ++ str ", " ++ lowerL obj ++ str ")")
  | none => none

end Legacy

/-- Models `str.split(sep, 1)`: the text before and after the first occurrence of
`sep`, or `none` when `sep` does not occur (Python then returns one part). -/
def splitFirst (sep s : List Char) : Option (List Char × List Char) :=
  (List.range (s.length + 1)).findSome? (fun i =>
    if sep.isPrefixOf (s.drop i) then some (s.take i, s.drop (i + sep.length)) else none)

namespace Legacy

/-- Models `ACEToPrologParser.ace_to_prolog_rule` (legacy module): the
`<conclusion> if <condition>` form, else the `If <condition> then
<conclusion>` form. -/
def ace_to_prolog_rule (s : List Char) : Option (List Char) :=
  let r := rstripAll '.' (stripL s)
  if strIn (str " if ") (lowerL r) then
    match splitFirst (str " if ") r with
    | none => none
    | some (a, b) =>
        let ch := convertExpr (stripL a)
        let cb := convertExpr (stripL b)
        if optTruthy ch && optTruthy cb then
          some (ch.getD [] ++ str " :- " ++ cb.getD [])
        else none
  else if (str "if ").isPrefixOf (lowerL r) && strIn (str " then ") (lowerL r) then
    match splitFirst (str " then ") r with
    | none => none
    | some (a, b) =>
        let cond := stripL (a.drop 3)
        let concl := stripL b
        let ch := convertExpr concl
        let cc := convertExpr cond
        if optTruthy ch && optTruthy cc then
          some (ch.getD [] ++ str " :- " ++ cc.getD [])
        else none
  else none

end Legacy

/-- The atom well-formedness predicate stated by the claim: only lowercase
ASCII letters, digits and underscores, with a lowercase first letter. -/
def atomOk : List Char → Bool
  | [] => true
  | c :: rest =>
      isLowerAZ c && (c :: rest).all (fun d => isLowerAZ d || isDigitC d || d == '_')

/-- Input characters for which normalization produces a well-formed atom:
ASCII letters, digits, underscore, whitespace and hyphen. -/
def okChar (c : Char) : Bool :=
  isAsciiAlpha c || isDigitC c || c == '_' || isWsHyphen c

/-! ## Statement classification (`parse_statement`) -/

/-- The body matched by a pattern `...<c>$`: `$` may also match just
before a final newline; returns the text before the final `c`. -/
def endAnchor (c : Char) (s : List Char) : Option (List Char) :=
  let t := dollarStrip s
  match t.getLast? with
  | some d => if d == c then some t.dropLast else none
  | none => none

/-- Whether `.+sep₁.+sep₂...+` covers `s` exactly: `s` decomposes into non-empty
newline-free parts interleaved with the separators. -/
def dpChain : List (List Char) → List Char → Bool
  | [], s => !s.isEmpty && nlFree s
  | sep :: seps, s =>
      (List.range s.length).any (fun i =>
        let a := s.take i
        !a.isEmpty && nlFree a && sep.isPrefixOf (s.drop i) &&
          dpChain seps ((s.drop i).drop sep.length))

/-- Whether `.+<endLit>` covers `s` exactly. -/
def dpEndLit (endLit s : List Char) : Bool :=
  decide (endLit.length + 1 ≤ s.length) &&
  s.drop (s.length - endLit.length) == endLit &&
  nlFree (s.take (s.length - endLit.length))

/-- Whether `.+sep₁...+<endLit>` covers `s` exactly. -/
def dpChainEnd : List (List Char) → List Char → List Char → Bool
  | [], endLit, s => dpEndLit endLit s
  | sep :: seps, endLit, s =>
      (List.range s.length).any (fun i =>
        let a := s.take i
        !a.isEmpty && nlFree a && sep.isPrefixOf (s.drop i) &&
          dpChainEnd seps endLit ((s.drop i).drop sep.length))

/-- The interrogative lead words of query pattern 2. -/
def qWords : List (List Char) :=
  [str "is", str "are", str "does", str "do", str "who", str "what",
   str "when", str "where", str "why", str "how"]

/-- Models `^.+\?$` (query pattern 1). -/
def qp1 (t : List Char) : Bool :=
  match endAnchor '?' t with
  | some body => !body.isEmpty && nlFree body
  | none => false

/-- Models `^(Is|Are|Does|Do|Who|What|When|Where|Why|How) .+\?$` (ci). -/
def qp2 (t : List Char) : Bool :=
  match endAnchor '?' (lowerL t) with
  | some body =>
      qWords.any (fun w =>
        (w ++ [' ']).isPrefixOf body &&
          (let rest := body.drop (w.length + 1)
           !rest.isEmpty && nlFree rest))
  | none => false

/-- Models `^Is .+ eligible for .+\?$` (ci). -/
def qp3 (t : List Char) : Bool :=
  match endAnchor '?' (lowerL t) with
  | some body => (str "is ").isPrefixOf body && dpChain [str " eligible for "] (body.drop 3)
  | none => false

/-- Models `^What benefits does .+ qualify for\?$` (ci). -/
def qp4 (t : List Char) : Bool :=
  match endAnchor '?' (lowerL t) with
  | some body =>
      (str "what benefits does ").isPrefixOf body &&
        dpEndLit (str " qualify for") (body.drop 19)
  | none => false

/-- Models `^How much .+ does .+ receive\?$` (ci). -/
def qp5 (t : List Char) : Bool :=
  match endAnchor '?' (lowerL t) with
  | some body =>
      (str "how much ").isPrefixOf body &&
        dpChainEnd [str " does "] (str " receive") (body.drop 9)
  | none => false

/-- Models `^Which .+ are eligible for .+\?$` (ci). -/
def qp6 (t : List Char) : Bool :=
  match endAnchor '?' (lowerL t) with
  | some body =>
      (str "which ").isPrefixOf body && dpChain [str " are eligible for "] (body.drop 6)
  | none => false

/-- Models `any(re.match(p, text, re.IGNORECASE) for p in self.query_patterns)`. -/
def query_patterns_match (t : List Char) : Bool :=
  qp1 t || qp2 t || qp3 t || qp4 t || qp5 t || qp6 t

/-- Models `^.+ if .+\.$` (ci). -/
def rp1 (t : List Char) : Bool :=
  match endAnchor '.' (lowerL t) with
  | some body => dpChain [str " if "] body
  | none => false

/-- Models `^If .+ then .+\.$` (ci). -/
def rp2 (t : List Char) : Bool :=
  match endAnchor '.' (lowerL t) with
  | some body => (str "if ").isPrefixOf body && dpChain [str " then "] (body.drop 3)
  | none => false

/-- Models `^.+ is eligible for .+ if .+\.$` (ci). -/
def rp3 (t : List Char) : Bool :=
  match endAnchor '.' (lowerL t) with
  | some body => dpChain [str " is eligible for ", str " if "] body
  | none => false

/-- Models `^.+ qualifies for .+ when .+\.$` (ci). -/
def rp4 (t : List Char) : Bool :=
  match endAnchor '.' (lowerL t) with
  | some body => dpChain [str " qualifies for ", str " when "] body
  | none => false

/-- Models `^.+ receives .+ if .+ and .+\.$` (ci). -/
def rp5 (t : List Char) : Bool :=
  match endAnchor '.' (lowerL t) with
  | some body => dpChain [str " receives ", str " if ", str " and "] body
  | none => false

/-- Models `any(re.match(p, text, re.IGNORECASE) for p in self.rule_patterns)`. -/
def rule_patterns_match (t : List Char) : Bool :=
  rp1 t || rp2 t || rp3 t || rp4 t || rp5 t

/-- Models `[A-Z][a-zA-Z0-9_-]+` at the start: returns the rest. -/
def capTokThen (s : List Char) : Option (List Char) :=
  match s with
  | c :: rest =>
      if isUpperAZ c then
        let run := rest.takeWhile wordHyphenChar
        if run.isEmpty then none else some (rest.drop run.length)
      else none
  | [] => none

/-- Models `^[A-Z][a-zA-Z0-9_-]+ (is|are|has|have) .+\.$` (case-sensitive). -/
def fp1 (t : List Char) : Bool :=
  match endAnchor '.' t with
  | some body =>
      match capTokThen body with
      | some r =>
          [str "is", str "are", str "has", str "have"].any (fun v =>
            (' ' :: v ++ [' ']).isPrefixOf r &&
              (let rest := r.drop (v.length + 2)
               !rest.isEmpty && nlFree rest))
      | none => false
  | none => false

/-- Tail of fact pattern 2: `.+ [a-zA-Z0-9_-]+` covering `s` exactly. -/
def fp2tail (s : List Char) : Bool :=
  (List.range s.length).any (fun i =>
    let m := s.take i
    !m.isEmpty && nlFree m &&
      (match s.drop i with
       | ' ' :: w => !w.isEmpty && w.all wordHyphenChar
       | _ => false))

/-- Models `^[A-Z][a-zA-Z0-9_-]+ .+ [a-zA-Z0-9_-]+\.$`. -/
def fp2 (t : List Char) : Bool :=
  match endAnchor '.' t with
  | some body =>
      match capTokThen body with
      | some r =>
          (match r with
           | ' ' :: r2 => fp2tail r2
           | _ => false)
      | none => false
  | none => false

/-- Models `^[A-Z][a-zA-Z0-9_-]+ earns \d+(\.\d+)? euros per (month|year)\.$`. -/
def fp3 (t : List Char) : Bool :=
  match endAnchor '.' t with
  | some body =>
      match capTokThen body with
      | some r =>
          if (str " earns ").isPrefixOf r then
            let r2 := r.drop 7
            let ds := r2.takeWhile isDigitC
            if ds.isEmpty then false
            else
              let r3 := r2.drop ds.length
              let r4 := (match r3 with
                         | '.' :: rest =>
                             let ds2 := rest.takeWhile isDigitC
                             if ds2.isEmpty then r3 else rest.drop ds2.length
                         | _ => r3)
              r4 == str " euros per month" || r4 == str " euros per year"
          else false
      | none => false
  | none => false

/-- Models `\d{4}-\d{2}-\d{2}` covering the whole string. -/
def isDateTail (r : List Char) : Bool :=
  match r with
  | [a, b, c, d, h1, e, f, h2, g, k] =>
      [a, b, c, d, e, f, g, k].all isDigitC && h1 == '-' && h2 == '-'
  | _ => false

/-- Models `^[A-Z][a-zA-Z0-9_-]+ was born on \d{4}-\d{2}-\d{2}\.$`. -/
def fp4 (t : List Char) : Bool :=
  match endAnchor '.' t with
  | some body =>
      match capTokThen body with
      | some r => (str " was born on ").isPrefixOf r && isDateTail (r.drop 13)
      | none => false
  | none => false

/-- Models `^[A-Z][a-zA-Z0-9_-]+ lives in [A-Za-z0-9_-]+\.$`. -/
def fp5 (t : List Char) : Bool :=
  match endAnchor '.' t with
  | some body =>
      match capTokThen body with
      | some r =>
          if (str " lives in ").isPrefixOf r then
            let w := r.drop 10
            !w.isEmpty && w.all wordHyphenChar
          else false
      | none => false
  | none => false

/-- Models `^[A-Z][a-zA-Z0-9_-]+ has \d+ (child|children)\.$`. -/
def fp6 (t : List Char) : Bool :=
  match endAnchor '.' t with
  | some body =>
      match capTokThen body with
      | some r =>
          if (str " has ").isPrefixOf r then
            let r2 := r.drop 5
            let ds := r2.takeWhile isDigitC
            if ds.isEmpty then false
            else
              let r3 := r2.drop ds.length
              r3 == ' ' :: str "child" || r3 == ' ' :: str "children"
          else false
      | none => false
  | none => false

/-- Models `^[A-Z][a-zA-Z0-9_-]+ is (employed|unemployed|self-employed|retired)\.$`. -/
def fp7 (t : List Char) : Bool :=
  match endAnchor '.' t with
  | some body =>
      match capTokThen body with
      | some r =>
          r == str " is employed" || r == str " is unemployed" ||
          r == str " is self-employed" || r == str " is retired"
      | none => false
  | none => false

/-- Models `^[A-Z][a-zA-Z0-9_-]+ is (married|single|divorced|widowed)\.$`. -/
def fp8 (t : List Char) : Bool :=
  match endAnchor '.' t with
  | some body =>
      match capTokThen body with
      | some r =>
          r == str " is married" || r == str " is single" ||
          r == str " is divorced" || r == str " is widowed"
      | none => false
  | none => false

/-- Models `^[A-Z][a-zA-Z0-9_-]+ has (German|EU|non-EU) citizenship\.$`. -/
def fp9 (t : List Char) : Bool :=
  match endAnchor '.' t with
  | some body =>
      match capTokThen body with
      | some r =>
          r == str " has German citizenship" || r == str " has EU citizenship" ||
          r == str " has non-EU citizenship"
      | none => false
  | none => false

/-- Models `any(re.match(p, text) for p in self.fact_patterns)` (no flag). -/
def fact_patterns_match (t : List Char) : Bool :=
  fp1 t || fp2 t || fp3 t || fp4 t || fp5 t || fp6 t || fp7 t || fp8 t || fp9 t

/-- Models `text.endswith('.')`. -/
def endsDot (t : List Char) : Bool := t.getLast? == some '.'

/-- The `ACEStatement` dataclass. -/
structure ACEStatement where
  content : List Char
  statement_type : String
deriving DecidableEq

/-- Models `ACEToPrologParser.parse_statement`: queries first, then rules, then
facts, defaulting to a fact with a `.` appended. -/
def parse_statement (text : List Char) : ACEStatement :=
  let t := stripL text
  if query_patterns_match t then ⟨t, "query"⟩
  else if rule_patterns_match t then ⟨t, "rule"⟩
  else if fact_patterns_match t || endsDot t then ⟨t, "fact"⟩
  else ⟨if endsDot t then t else t ++ ['.'], "fact"⟩

/-! ## The fact translator (`ace_to_prolog_fact`, enhanced parser) -/

/-- The status alternation
`(employed|unemployed|self.employed|retired|married|single|divorced|widowed)`,
tried left to right; the `.` of `self.employed` matches any non-newline
character.  Returns the matched text. -/
def statusAlt (r : List Char) : Option (List Char) :=
  if (str "employed").isPrefixOf r then some (str "employed")
  else if (str "unemployed").isPrefixOf r then some (str "unemployed")
  else
    match r with
    | 's' :: 'e' :: 'l' :: 'f' :: c :: rest =>
        if c != '\n' && (str "employed").isPrefixOf rest then
          some ('s' :: 'e' :: 'l' :: 'f' :: c :: str "employed")
        else none
    | _ =>
        if (str "retired").isPrefixOf r then some (str "retired")
        else if (str "married").isPrefixOf r then some (str "married")
        else if (str "single").isPrefixOf r then some (str "single")
        else if (str "divorced").isPrefixOf r then some (str "divorced")
        else if (str "widowed").isPrefixOf r then some (str "widowed")
        else none

/-- Models `re.match(r'^(.+) is (employed|...|widowed)', s)`. -/
def matchStatusFact (s : List Char) : Option (List Char × List Char) :=
  (List.range (s.length + 1)).reverse.findSome? (fun i =>
    let a := s.take i
    let rest := s.drop i
    if !a.isEmpty && nlFree a && (str " is ").isPrefixOf rest then
      match statusAlt (rest.drop 4) with
      | some st => some (a, st)
      | none => none
    else none)

/-- Models `re.match(r'^(.+) earns (\d+(?:\.\d+)?) euros per (month|year)', s)`:
returns (entity, amount, period). -/
def matchEarns (s : List Char) : Option (List Char × List Char × List Char) :=
  (List.range (s.length + 1)).reverse.findSome? (fun i =>
    let a := s.take i
    let rest := s.drop i
    if !a.isEmpty && nlFree a && (str " earns ").isPrefixOf rest then
      let r2 := rest.drop 7
      let ds := r2.takeWhile isDigitC
      if ds.isEmpty then none
      else
        let r3 := r2.drop ds.length
        let amt :=
          match r3 with
          | '.' :: r4 =>
              let ds2 := r4.takeWhile isDigitC
              if ds2.isEmpty then (ds, r3) else (ds ++ '.' :: ds2, r4.drop ds2.length)
          | _ => (ds, r3)
        if (str " euros per month").isPrefixOf amt.2 then some (a, amt.1, str "month")
        else if (str " euros per year").isPrefixOf amt.2 then some (a, amt.1, str "year")
        else none
    else none)

/-- Models `re.match(r'^(.+) was born on (\d{4}-\d{2}-\d{2})', s)`. -/
def matchBorn (s : List Char) : Option (List Char × List Char) :=
  (List.range (s.length + 1)).reverse.findSome? (fun i =>
    let a := s.take i
    let rest := s.drop i
    if !a.isEmpty && nlFree a && (str " was born on ").isPrefixOf rest then
      match rest.drop 13 with
      | y1 :: y2 :: y3 :: y4 :: m0 :: m1 :: m2 :: d0 :: d1 :: d2 :: _ =>
          if [y1, y2, y3, y4, m1, m2, d1, d2].all isDigitC && m0 == '-' && d0 == '-' then
            some (a, [y1, y2, y3, y4, m0, m1, m2, d0, d1, d2])
          else none
      | _ => none
    else none)

/-- Models `re.match(r'^(.+) lives in ([A-Za-z][A-Za-z0-9_-]*)', s)`. -/
def matchLivesFact (s : List Char) : Option (List Char × List Char) :=
  (List.range (s.length + 1)).reverse.findSome? (fun i =>
    let a := s.take i
    let rest := s.drop i
    if !a.isEmpty && nlFree a && (str " lives in ").isPrefixOf rest then
      match rest.drop 10 with
      | c :: cs => if isAsciiAlpha c then some (a, c :: cs.takeWhile wordHyphenChar) else none
      | [] => none
    else none)

/-- Models `re.match(r'^(.+) has (\d+) (child|children)', s)`. -/
def matchChildrenFact (s : List Char) : Option (List Char × List Char) :=
  (List.range (s.length + 1)).reverse.findSome? (fun i =>
    let a := s.take i
    let rest := s.drop i
    if !a.isEmpty && nlFree a && (str " has ").isPrefixOf rest then
      let r2 := rest.drop 5
      let ds := r2.takeWhile isDigitC
      if !ds.isEmpty && (' ' :: str "child").isPrefixOf (r2.drop ds.length) then
        some (a, ds)
      else none
    else none)

/-- Models `re.match(r'^(.+) has (.+) (.+)', s)`: both leading groups greedy. -/
def matchHasYZ (s : List Char) : Option (List Char × List Char × List Char) :=
  (List.range (s.length + 1)).reverse.findSome? (fun i =>
    let a := s.take i
    let rest := s.drop i
    if !a.isEmpty && nlFree a && (str " has ").isPrefixOf rest then
      match splitLastDP [' '] (rest.drop 5) with
      | some (b, c) => some (a, b, c)
      | none => none
    else none)

/-- Models `birth_date.replace('-', ', ')`. -/
def replDateSeps (s : List Char) : List Char :=
  s.foldr (fun c acc => if c == '-' then ',' :: ' ' :: acc else c :: acc) []

/-- Models `ACEToPrologParser.ace_to_prolog_fact` (enhanced parser): the ordered
template cascade. -/
def ace_to_prolog_fact (s : List Char) : Option (List Char) :=
  let f := rstripAll '.' (stripL s)
  match splitLastSepIdent (str " is a ") f with
  | some (e, cat) =>
      some (normalize_entity cat ++ str "(" ++ normalize_entity e ++ str ")")
  | none =>
  match matchStatusFact f with
  | some (e, st) =>
      let status := replHyphen st
      if [str "employed", str "unemployed", str "self_employed",
          str "retired"].contains status then
        some (str "employment_status(" ++ normalize_entity e ++ str ", " ++ status ++ str ")")
      else if [str "married", str "single", str "divorced",
               str "widowed"].contains status then
        some (str "marital_status(" ++ normalize_entity e ++ str ", " ++ status ++ str ")")
      else none
  | none =>
  match splitLastSepIdent (str " is ") f with
  | some (e, p) => some (normalize_entity p ++ str "(" ++ normalize_entity e ++ str ")")
  | none =>
  match splitLastDP (str " likes ") f with
  | some (e, o) =>
      some (str "likes(" ++ normalize_entity e ++ str ", " ++ normalize_entity o ++ str ")")
  | none =>
  match matchEarns f with
  | some (e, amt, per) =>
      some (str "income(" ++ normalize_entity e ++ str ", " ++ amt ++ str ", " ++ per ++ str ")")
  | none =>
  match matchBorn f with
  | some (e, d) =>
      some (str "birth_date(" ++ normalize_entity e ++ str ", date(" ++
            replDateSeps d ++ str "))")
  | none =>
  match matchLivesFact f with
  | some (e, loc) =>
      some (str "residence(" ++ normalize_entity e ++ str ", " ++ normalize_entity loc ++ str ")")
  | none =>
  match matchChildrenFact f with
  | some (e, n) =>
      some (str "children_count(" ++ normalize_entity e ++ str ", " ++ n ++ str ")")
  | none =>
  match matchCitizCond f with
  | some (e, cit) =>
      some (str "citizenship(" ++ normalize_entity e ++ str ", " ++
            lowerL (replHyphen cit) ++ str ")")
  | none =>
  match matchHasYZ f with
  | some (e, p, v) =>
      some (str "has_property(" ++ normalize_entity e ++ str ", " ++ normalize_entity p ++
            str ", " ++ normalize_entity v ++ str ")")
  | none => none

/-! ## The query translator (`parse_query_type` / `ace_to_prolog_query`) -/

/-- The `QueryType` enumeration. -/
inductive QueryType where
  | IS_X_Y
  | WHO_IS_X
  | WHAT_DOES_X_LIKE
  | HOW_MUCH
  | WHAT_BENEFITS
  | WHICH_ELIGIBLE
  | IS_ELIGIBLE_FOR
deriving DecidableEq

/-- Models `re.match(r'^is (.+) eligible for (.+)', query_lower)`. -/
def matchIsElig (l : List Char) : Option (List Char × List Char) :=
  if (str "is ").isPrefixOf l then splitLastDP (str " eligible for ") (l.drop 3) else none

/-- Models `re.match(r'^what does ([a-zA-Z][a-zA-Z0-9_]*) like', query_lower)`. -/
def matchWhatDoesLike (l : List Char) : Option (List Char) :=
  if (str "what does ").isPrefixOf l then
    match l.drop 10 with
    | c :: rest =>
        if isAsciiAlpha c then
          let run := rest.takeWhile wordChar
          if (str " like").isPrefixOf (rest.drop run.length) then some (c :: run) else none
        else none
    | [] => none
  else none

/-- Models `re.match(r'^what benefits does (.+) qualify for', query_lower)`. -/
def matchWhatBenefits (l : List Char) : Option (List Char) :=
  if (str "what benefits does ").isPrefixOf l then
    let s := l.drop 19
    (List.range (s.length + 1)).reverse.findSome? (fun i =>
      let a := s.take i
      if !a.isEmpty && nlFree a && (str " qualify for").isPrefixOf (s.drop i) then some a
      else none)
  else none

/-- Models `re.match(r'^which (.+) are eligible for (.+)', query_lower)`. -/
def matchWhichElig (l : List Char) : Option (List Char × List Char) :=
  if (str "which ").isPrefixOf l then
    splitLastDP (str " are eligible for ") (l.drop 6)
  else none

/-- Models `re.match(r'^how much (.+) does (.+) (receive|earn)', query_lower)`:
returns (benefit kind, entity, action). -/
def matchHowMuch (l : List Char) : Option (List Char × List Char × List Char) :=
  if (str "how much ").isPrefixOf l then
    let s := l.drop 9
    (List.range (s.length + 1)).reverse.findSome? (fun i =>
      let a := s.take i
      let rest := s.drop i
      if !a.isEmpty && nlFree a && (str " does ").isPrefixOf rest then
        let r2 := rest.drop 6
        (List.range (r2.length + 1)).reverse.findSome? (fun j =>
          let b := r2.take j
          let r3 := r2.drop j
          if !b.isEmpty && nlFree b then
            if (str " receive").isPrefixOf r3 then some (a, b, str "receive")
            else if (str " earn").isPrefixOf r3 then some (a, b, str "earn")
            else none
          else none)
      else none)
  else none

/-- Models `re.match(r'^([a-zA-Z][a-zA-Z0-9_]*) ([a-zA-Z][a-zA-Z0-9_]*)', s)`. -/
def matchTwoIdents (s : List Char) : Option (List Char × List Char) :=
  match s with
  | c :: rest =>
      if isAsciiAlpha c then
        let run := rest.takeWhile wordChar
        match rest.drop run.length with
        | ' ' :: d :: rest2 =>
            if isAsciiAlpha d then some (c :: run, d :: rest2.takeWhile wordChar)
            else none
        | _ => none
      else none
  | [] => none

/-- Models `ACEToPrologParser.parse_query_type`: the ordered dispatch on the
lowered query. -/
def parse_query_type (q : List Char) : Option QueryType :=
  let l := lowerL q
  if (str "is ").isPrefixOf l then
    if (matchIsElig l).isSome then some QueryType.IS_ELIGIBLE_FOR
    else some QueryType.IS_X_Y
  else if (str "who is ").isPrefixOf l then some QueryType.WHO_IS_X
  else if (matchWhatDoesLike l).isSome then some QueryType.WHAT_DOES_X_LIKE
  else if (matchWhatBenefits l).isSome then some QueryType.WHAT_BENEFITS
  else if (matchWhichElig l).isSome then some QueryType.WHICH_ELIGIBLE
  else if (matchHowMuch l).isSome then some QueryType.HOW_MUCH
  else none

/-- Models `ACEToPrologParser.ace_to_prolog_query`.  `Except.error ()` marks the
places where the Python code would call `.group(...)` on a failed match
and raise (`WHAT_DOES_X_LIKE`, `IS_ELIGIBLE_FOR`, `WHAT_BENEFITS`,
`WHICH_ELIGIBLE` re-match without a guard); `.ok none` is the explicit
`None` result. -/
def ace_to_prolog_query (q0 : List Char) : Except Unit (Option (List Char)) :=
  let q := rstripAll '?' (stripL q0)
  match parse_query_type q with
  | some QueryType.IS_X_Y =>
      let content := stripL (q.drop 3)
      match matchTwoIdents content with
      | some (w1, w2) =>
          Except.ok (some (normalize_entity w2 ++ str "(" ++ normalize_entity w1 ++ str ")"))
      | none => Except.ok none
  | some QueryType.WHO_IS_X =>
      Except.ok (some (normalize_entity (lowerL (stripL (q.drop 7))) ++ str "(X)"))
  | some QueryType.WHAT_DOES_X_LIKE =>
      match matchWhatDoesLike (lowerL q) with
      | some e => Except.ok (some (str "likes(" ++ normalize_entity e ++ str ", X)"))
      | none => Except.error ()
  | some QueryType.IS_ELIGIBLE_FOR =>
      match matchIsElig (lowerL q) with
      | some (e, b) =>
          Except.ok (some (str "eligible(" ++ normalize_entity e ++ str ", " ++
                           normalize_entity b ++ str ")"))
      | none => Except.error ()
  | some QueryType.WHAT_BENEFITS =>
      match matchWhatBenefits (lowerL q) with
      | some e => Except.ok (some (str "eligible(" ++ normalize_entity e ++ str ", X)"))
      | none => Except.error ()
  | some QueryType.WHICH_ELIGIBLE =>
      match matchWhichElig (lowerL q) with
      | some (_, b) => Except.ok (some (str "eligible(X, " ++ normalize_entity b ++ str ")"))
      | none => Except.error ()
  | some QueryType.HOW_MUCH =>
      match matchHowMuch (lowerL q) with
      | some (bt, e, act) =>
          let btn := normalize_entity bt
          let en := normalize_entity e
          if act == str "earn" && btn == str "income" then
            Except.ok (some (str "income(" ++ en ++ str ", X, _)"))
          else if act == str "earn" then
            Except.ok (some (str "income(" ++ en ++ str ", X, _)"))
          else
            Except.ok (some (str "benefit_amount(" ++ en ++ str ", " ++ btn ++ str ", X)"))
      | none => Except.ok none
  | none => Except.ok none

example : normalize_entity (str " John  Smith ") = str "john_smith" := by decide

example : normalize_entity (str "self-employed") = str "self_employed" := by decide

example : normalize_entity (str "X is tall or X") = str "x_is_tall_or_x" := by decide

example : normalize_entity (str "1a") = str "1a" := by decide

example : ace_to_prolog_rule (str "X is happy if X likes chocolate.") =
    some (str "happy(X) :- likes(X, chocolate)") := by decide

example : ace_to_prolog_rule (str "Someone is happy if Someone likes chocolate.") =
    some (str "happy(SOMEONE) :- likes(SOMEONE, chocolate)") := by decide

example : ace_to_prolog_rule
    (str "X is eligible for Kindergeld if X has German citizenship and X has more than 0 children and X lives in Germany.") =
    some (str "eligible(X, kindergeld) :- citizenship(X, german), children_count(X, Count), Count > 0, residence(X, germany)") := by decide

example : Legacy.ace_to_prolog_rule (str "X is happy if X likes chocolate.") =
    some (str "happy(X) :- likes(X, chocolate)") := by decide

example : Legacy.ace_to_prolog_rule (str "If X likes chocolate then X is happy.") =
    some (str "happy(X) :- likes(X, chocolate)") := by decide

example : Legacy.ace_to_prolog_rule (str "If X and Y then Z.") = none := by decide

example : Legacy.ace_to_prolog_rule (str "X is if Y likes chocolate.") = none := by decide

/-! ## Character-level lemmas -/

theorem char_eq_of_toNat {c d : Char} (h : c.toNat = d.toNat) : c = d :=
  Char.eq_of_val_eq (UInt32.toNat.inj h)

theorem ofNat_toNat_small {n : Nat} (h : n ≤ 122) : (Char.ofNat n).toNat = n := by
  unfold Char.ofNat
  have hv : n.isValidChar := Or.inl (by omega)
  rw [dif_pos hv]
  rfl

theorem isUpperAZ_iff {c : Char} : isUpperAZ c = true ↔ 65 ≤ c.toNat ∧ c.toNat ≤ 90 := by
  unfold isUpperAZ
  simp only [Bool.and_eq_true, decide_eq_true_eq]
  exact Iff.rfl

theorem isLowerAZ_iff {c : Char} : isLowerAZ c = true ↔ 97 ≤ c.toNat ∧ c.toNat ≤ 122 := by
  unfold isLowerAZ
  simp only [Bool.and_eq_true, decide_eq_true_eq]
  exact Iff.rfl

theorem isDigitC_iff {c : Char} : isDigitC c = true ↔ 48 ≤ c.toNat ∧ c.toNat ≤ 57 := by
  unfold isDigitC
  simp only [Bool.and_eq_true, decide_eq_true_eq]
  exact Iff.rfl

theorem bool_eq_false {b : Bool} (h : ¬ b = true) : b = false := by
  cases b
  · rfl
  · exact absurd rfl h

theorem isPyWs_toNat {c : Char} (h : isPyWs c = true) :
    c.toNat = 32 ∨ c.toNat = 9 ∨ c.toNat = 10 ∨ c.toNat = 13 ∨
    c.toNat = 11 ∨ c.toNat = 12 := by
  unfold isPyWs at h
  simp only [Bool.or_eq_true, beq_iff_eq, or_assoc] at h
  rcases h with h|h|h|h|h|h <;> subst h <;> decide

theorem isWsHyphen_toNat {c : Char} (h : isWsHyphen c = true) :
    c.toNat = 32 ∨ c.toNat = 9 ∨ c.toNat = 10 ∨ c.toNat = 13 ∨
    c.toNat = 11 ∨ c.toNat = 12 ∨ c.toNat = 45 := by
  unfold isWsHyphen at h
  simp only [Bool.or_eq_true, beq_iff_eq] at h
  rcases h with h | h
  · rcases isPyWs_toNat h with h|h|h|h|h|h <;> omega
  · subst h; decide

theorem isWsHyphen_false_of_ge {c : Char} (h : 46 ≤ c.toNat) : isWsHyphen c = false := by
  cases hb : isWsHyphen c
  · rfl
  · exfalso
    rcases isWsHyphen_toNat hb with h1|h1|h1|h1|h1|h1|h1 <;> omega

theorem isPyWs_false_of_wsHyphen {c : Char} (h : isWsHyphen c = false) :
    isPyWs c = false := by
  unfold isWsHyphen at h
  revert h
  cases isPyWs c <;> simp

theorem pyLower_spec (c : Char) :
    (65 ≤ c.toNat ∧ c.toNat ≤ 90 ∧ (pyLower c).toNat = c.toNat + 32) ∨
    (isUpperAZ c = false ∧ pyLower c = c) := by
  by_cases h : isUpperAZ c = true
  · left
    obtain ⟨h1, h2⟩ := isUpperAZ_iff.mp h
    refine ⟨h1, h2, ?_⟩
    unfold pyLower
    rw [if_pos h]
    exact ofNat_toNat_small (by omega)
  · right
    have hf : isUpperAZ c = false := bool_eq_false h
    exact ⟨hf, by unfold pyLower; rw [if_neg (by simp [hf])]⟩

theorem pyLower_eq_self {c : Char} (h : isUpperAZ c = false) : pyLower c = c := by
  unfold pyLower
  rw [if_neg (by simp [h])]

theorem isUpperAZ_pyLower (c : Char) : isUpperAZ (pyLower c) = false := by
  rcases pyLower_spec c with ⟨_, _, h3⟩ | ⟨h1, h2⟩
  · cases hb : isUpperAZ (pyLower c)
    · rfl
    · exfalso
      have := isUpperAZ_iff.mp hb
      omega
  · rw [h2]; exact h1

theorem pyLower_idem (c : Char) : pyLower (pyLower c) = pyLower c :=
  pyLower_eq_self (isUpperAZ_pyLower c)

theorem isWsHyphen_pyLower (c : Char) : isWsHyphen (pyLower c) = isWsHyphen c := by
  rcases pyLower_spec c with ⟨h1, h2, h3⟩ | ⟨_, h2⟩
  · rw [isWsHyphen_false_of_ge (by omega), isWsHyphen_false_of_ge (by omega)]
  · rw [h2]

/-! ## Facts about `normalize_entity` -/

theorem mem_collapseAux {c : Char} (b : Bool) (s : List Char) (h : c ∈ collapseAux b s) :
    c = '_' ∨ (c ∈ s ∧ isWsHyphen c = false) := by
  induction s generalizing b with
  | nil => simp [collapseAux] at h
  | cons d t ih =>
      by_cases hd : isWsHyphen d = true
      · cases b with
        | true =>
            simp only [collapseAux, hd, if_true] at h
            rcases ih true h with h1 | ⟨h2, h3⟩
            · exact Or.inl h1
            · exact Or.inr ⟨List.mem_cons_of_mem _ h2, h3⟩
        | false =>
            simp only [collapseAux, hd, if_true] at h
            rcases List.mem_cons.mp h with h1 | h1
            · exact Or.inl h1
            · rcases ih true h1 with h2 | ⟨h3, h4⟩
              · exact Or.inl h2
              · exact Or.inr ⟨List.mem_cons_of_mem _ h3, h4⟩
      · have hd' : isWsHyphen d = false := by revert hd; cases isWsHyphen d <;> simp
        simp only [collapseAux, hd', Bool.false_eq_true, if_false] at h
        rcases List.mem_cons.mp h with h1 | h1
        · subst h1; exact Or.inr ⟨List.mem_cons_self _ _, hd'⟩
        · rcases ih false h1 with h2 | ⟨h3, h4⟩
          · exact Or.inl h2
          · exact Or.inr ⟨List.mem_cons_of_mem _ h3, h4⟩

theorem collapseAux_eq_self {s : List Char} (hs : ∀ c ∈ s, isWsHyphen c = false) :
    ∀ b, collapseAux b s = s := by
  induction s with
  | nil => intro b; rfl
  | cons d t ih =>
      intro b
      have hd := hs d (List.mem_cons_self _ _)
      simp only [collapseAux, hd, Bool.false_eq_true, if_false]
      rw [ih (fun c hc => hs c (List.mem_cons_of_mem _ hc))]

theorem map_eq_self_of {f : Char → Char} {s : List Char} (hs : ∀ c ∈ s, f c = c) :
    s.map f = s := by
  induction s with
  | nil => rfl
  | cons d t ih =>
      simp only [List.map_cons, hs d (List.mem_cons_self _ _)]
      rw [ih (fun c hc => hs c (List.mem_cons_of_mem _ hc))]

theorem dropWhile_eq_self_of {p : Char → Bool} {s : List Char}
    (hs : ∀ c ∈ s, p c = false) : s.dropWhile p = s := by
  cases s with
  | nil => rfl
  | cons d t =>
      rw [List.dropWhile_cons_of_neg]
      simp [hs d (List.mem_cons_self _ _)]

theorem stripL_eq_self {s : List Char} (hs : ∀ c ∈ s, isPyWs c = false) :
    stripL s = s := by
  unfold stripL
  rw [dropWhile_eq_self_of hs,
      dropWhile_eq_self_of (fun c hc => hs c (List.mem_reverse.mp hc)),
      List.reverse_reverse]

/-- Every character that `normalize_entity` emits is a fixed point of
`pyLower` and is neither whitespace nor a hyphen. -/
theorem normalize_entity_chars {s : List Char} :
    ∀ c ∈ normalize_entity s, isWsHyphen c = false ∧ pyLower c = c := by
  have base : ∀ c ∈ collapseWsHyphen (lowerL (stripL s)),
      isWsHyphen c = false ∧ pyLower c = c := by
    intro c hc
    rcases mem_collapseAux false _ hc with h1 | ⟨h2, h3⟩
    · subst h1; exact ⟨by decide, by decide⟩
    · obtain ⟨d, _, hd2⟩ := List.mem_map.mp h2
      exact ⟨h3, by rw [← hd2, pyLower_idem]⟩
  intro c hc
  unfold normalize_entity at hc
  revert hc
  cases he : collapseWsHyphen (lowerL (stripL s)) with
  | nil => intro hc; simp at hc
  | cons d t =>
      intro hc
      have hd := base d (by rw [he]; exact List.mem_cons_self _ _)
      have hup : isUpperAZ d = false := by
        rcases pyLower_spec d with ⟨_, _, h3⟩ | ⟨h1, _⟩
        · have h4 := hd.2
          have h5 : d.toNat = d.toNat + 32 := by
            conv_lhs => rw [← h4]
            exact h3
          omega
        · exact h1
      simp only [hup, Bool.false_eq_true, if_false] at hc
      rcases List.mem_cons.mp hc with h1 | h1
      · subst h1; exact hd
      · exact base c (by rw [he]; exact List.mem_cons_of_mem _ h1)

/-- The first-character branch of `normalize_entity` is dead: after
`lower()` no character is uppercase. -/
theorem normalize_entity_eq {s : List Char} :
    normalize_entity s = collapseWsHyphen (lowerL (stripL s)) := by
  unfold normalize_entity
  cases he : collapseWsHyphen (lowerL (stripL s)) with
  | nil => rfl
  | cons d t =>
      have hd : isWsHyphen d = false ∧ pyLower d = d := by
        have : ∀ c ∈ collapseWsHyphen (lowerL (stripL s)),
            isWsHyphen c = false ∧ pyLower c = c := by
          intro c hc
          rcases mem_collapseAux false _ hc with h1 | ⟨h2, h3⟩
          · subst h1; exact ⟨by decide, by decide⟩
          · obtain ⟨e, _, he2⟩ := List.mem_map.mp h2
            exact ⟨h3, by rw [← he2, pyLower_idem]⟩
        exact this d (by rw [he]; exact List.mem_cons_self _ _)
      have hup : isUpperAZ d = false := by
        rcases pyLower_spec d with ⟨_, _, h3⟩ | ⟨h1, _⟩
        · have h4 := hd.2
          have : d.toNat = d.toNat + 32 := by
            conv_lhs => rw [← h4]
            exact h3
          omega
        · exact h1
      simp [hup]

theorem isPyWs_false_of_wsHyphen_false {c : Char} (h : isWsHyphen c = false) :
    isPyWs c = false := by
  unfold isWsHyphen at h
  revert h
  cases isPyWs c <;> simp

theorem isUpperAZ_false_of_out {c : Char} (h : c.toNat < 65 ∨ 90 < c.toNat) :
    isUpperAZ c = false := by
  cases hb : isUpperAZ c
  · rfl
  · exfalso
    have := isUpperAZ_iff.mp hb
    omega

theorem isLowerAZ_pyLower_of_alpha {c : Char} (h : isAsciiAlpha c = true) :
    isLowerAZ (pyLower c) = true := by
  unfold isAsciiAlpha at h
  rcases Bool.or_eq_true .. |>.mp h with h1 | h1
  · obtain ⟨ha, hb⟩ := isLowerAZ_iff.mp h1
    rw [pyLower_eq_self (isUpperAZ_false_of_out (Or.inr (by omega)))]
    exact h1
  · rcases pyLower_spec c with ⟨_, _, h3⟩ | ⟨h2, _⟩
    · exact isLowerAZ_iff.mpr (by omega)
    · obtain ⟨ha, hb⟩ := isUpperAZ_iff.mp h1
      rw [h1] at h2
      exact absurd h2 (by simp)

theorem mem_of_mem_stripL {c : Char} {s : List Char} (h : c ∈ stripL s) : c ∈ s := by
  unfold stripL at h
  rw [List.mem_reverse] at h
  have h2 := (List.dropWhile_sublist (l := (s.dropWhile isPyWs).reverse) (p := isPyWs)).subset h
  rw [List.mem_reverse] at h2
  exact (List.dropWhile_sublist (l := s) (p := isPyWs)).subset h2

/-- C7.  `normalize_entity` is idempotent: a second application changes
nothing, because its output contains no whitespace, no hyphen and no
uppercase character. -/
theorem C7_normalize_idempotent (s : List Char) :
    normalize_entity (normalize_entity s) = normalize_entity s := by
  have hchars := normalize_entity_chars (s := s)
  rw [normalize_entity_eq (s := normalize_entity s)]
  rw [stripL_eq_self (fun c hc => isPyWs_false_of_wsHyphen_false (hchars c hc).1)]
  rw [show lowerL (normalize_entity s) = normalize_entity s from
        map_eq_self_of (fun c hc => (hchars c hc).2)]
  unfold collapseWsHyphen
  exact collapseAux_eq_self (fun c hc => (hchars c hc).1) false

/-- C8 counterexample.  The input `"1a"` has a non-empty normalization
whose first character is a digit, not a lowercase letter, so the result of
`normalize_entity` is not always a well-formed atom as the claim states. -/
theorem C8_counterexample :
    normalize_entity (str "1a") = str "1a" ∧ normalize_entity (str "1a") ≠ [] ∧
    atomOk (normalize_entity (str "1a")) = false := by
  refine ⟨by decide, by decide, by decide⟩

/-- C8 amended.  If every input character is an ASCII letter, digit,
underscore, whitespace or hyphen, and the stripped input starts with an
ASCII letter, then `normalize_entity` returns a non-empty string of
lowercase letters, digits and underscores whose first character is a
lowercase letter. -/
theorem C8_amended (s : List Char) (h1 : ∀ c ∈ s, okChar c = true)
    (h2 : ∃ d t, stripL s = d :: t ∧ isAsciiAlpha d = true) :
    normalize_entity s ≠ [] ∧ atomOk (normalize_entity s) = true := by
  obtain ⟨d, t, hst, hda⟩ := h2
  have hall : ∀ c ∈ normalize_entity s,
      (isLowerAZ c || isDigitC c || c == '_') = true := by
    intro c hc
    have hwh := (normalize_entity_chars c hc).1
    rw [normalize_entity_eq] at hc
    rcases mem_collapseAux false _ hc with h3 | ⟨h3, _⟩
    · subst h3; decide
    · obtain ⟨e, he1, he2⟩ := List.mem_map.mp h3
      have hok := h1 e (mem_of_mem_stripL he1)
      unfold okChar at hok
      simp only [Bool.or_eq_true] at hok
      rcases hok with ((ha | hb) | hu) | hw
      · rw [← he2]
        simp [isLowerAZ_pyLower_of_alpha ha]
      · rw [← he2, pyLower_eq_self
            (isUpperAZ_false_of_out (Or.inl (by have := isDigitC_iff.mp hb; omega)))]
        simp [hb]
      · rw [beq_iff_eq] at hu
        subst hu
        rw [← he2]
        decide
      · exfalso
        rw [← he2, isWsHyphen_pyLower] at hwh
        rw [hw] at hwh
        exact absurd hwh (by simp)
  have hhead : normalize_entity s = pyLower d :: collapseAux false (lowerL t) := by
    rw [normalize_entity_eq, hst]
    show collapseAux false (pyLower d :: lowerL t) = _
    have hwd : isWsHyphen (pyLower d) = false := by
      rw [isWsHyphen_pyLower]
      have := isLowerAZ_iff.mp (isLowerAZ_pyLower_of_alpha hda)
      rcases pyLower_spec d with ⟨ha, _, _⟩ | ⟨_, hb⟩
      · exact isWsHyphen_false_of_ge (by omega)
      · rw [← hb]
        exact isWsHyphen_false_of_ge (by omega)
    simp only [collapseAux, hwd, Bool.false_eq_true, if_false]
  constructor
  · rw [hhead]; exact List.cons_ne_nil _ _
  · rw [hhead]
    show (isLowerAZ (pyLower d) && ((pyLower d :: collapseAux false (lowerL t)).all
        (fun e => isLowerAZ e || isDigitC e || e == '_'))) = true
    refine Bool.and_eq_true .. |>.mpr ⟨isLowerAZ_pyLower_of_alpha hda, ?_⟩
    rw [List.all_eq_true]
    intro c hc
    exact hall c (by rw [hhead]; exact hc)

/-- C8 witness: the amended statement applied to the input `"John Smith"`. -/
theorem C8_witness :
    normalize_entity (str "John Smith") ≠ [] ∧
    atomOk (normalize_entity (str "John Smith")) = true :=
  C8_amended (str "John Smith") (by decide) ⟨'J', str "ohn Smith", by decide, by decide⟩

/-! ## Counterexamples and amended statements for the rule translator -/

/-- C2 counterexample.  A condition mixing ` and ` and ` or ` does not make
the rule fail: the conjunction branch splits only on ` and ` and emits a
clause in which the `or`-fragment has been mangled into a single atom. -/
theorem C2_counterexample :
    ace_to_prolog_rule (str "X is happy if X is rich and X is tall or X is smart.") =
      some (str "happy(X) :- rich(X), smart(x_is_tall_or_x)") ∧
    ace_to_prolog_rule (str "X is happy if X is rich and X is tall or X is smart.") ≠
      none := by
  refine ⟨by decide, by decide⟩

/-- C4 counterexample.  One untranslatable conjunct (`pigs fly`) does not
fail the rule: the emitted clause silently omits it. -/
theorem C4_counterexample :
    ace_to_prolog_rule (str "X is happy if X likes chocolate and pigs fly.") =
      some (str "happy(X) :- likes(X, chocolate)") := by decide

/-- C5 counterexample.  In the eligibility form the subject `Someone` is
not kept verbatim as the head variable: only `X`, `Y`, `Z` survive, any
other subject is replaced by the default variable `X`. -/
theorem C5_counterexample :
    ace_to_prolog_rule
      (str "Someone is eligible for Kindergeld if Someone likes chocolate.") =
      some (str "eligible(X, kindergeld) :- likes(someone, chocolate)") := by decide

/-- C6 counterexample.  A children-count condition whose subject is a
ground entity (`Mary`) rather than the rule variable fails instead of
producing `children_count(mary, Count), Count > 2`. -/
theorem C6_counterexample :
    parseSingleCondition (str "Mary has more than 2 children") (str "X") = none := by
  decide

/-- C6 amended.  With a ground subject, only the `likes` and `is`-property
condition shapes translate (through the fallback `_parse_condition`, with
statuses rendered as plain properties); the children-count, citizenship
and lives-in templates require the subject to be the rule variable and
otherwise fail. -/
theorem C6_amended :
    parseSingleCondition (str "Mary has German citizenship") (str "X") = none ∧
    parseSingleCondition (str "Mary lives in Berlin") (str "X") = none ∧
    parseSingleCondition (str "Mary has exactly 3 children") (str "X") = none ∧
    parseSingleCondition (str "Mary is married") (str "X") =
      some (str "married(mary)") ∧
    parseSingleCondition (str "Mary is employed") (str "X") =
      some (str "employed(mary)") ∧
    parseSingleCondition (str "Mary likes tea") (str "X") =
      some (str "likes(mary, tea)") ∧
    parseSingleCondition (str "Mary is rich") (str "X") =
      some (str "rich(mary)") ∧
    parseSingleCondition (str "X has more than 2 children") (str "X") =
      some (str "children_count(X, Count), Count > 2") := by
  refine ⟨by decide, by decide, by decide, by decide, by decide, by decide, by decide,
    by decide⟩

theorem truthyFilter_none_iff (r : Option (List Char)) :
    ((if optTruthy r then r else none) = none) ↔ optTruthy r = false := by
  cases hb : optTruthy r
  · simp [hb]
  · simp only [hb, if_true]
    constructor
    · intro h
      subst h
      simp [optTruthy] at hb
    · intro h
      exact absurd h (by decide)

/-- C2 amended.  A condition containing both ` and ` and ` or ` is not
rejected: it is handled entirely by the conjunction branch, which splits
only on ` and `; the translation fails only when no ` and `-separated
fragment translates, and succeeds (possibly mangling the `or`-text into an
atom) as soon as one fragment does. -/
theorem C2_amended (cond var : List Char)
    (hand : strIn (str " and ") (lowerL cond) = true)
    (hor : strIn (str " or ") (lowerL cond) = true) :
    parseComplexConditions cond var =
      (let parsed := (reSplitWord (str "and") cond).filterMap (fun p =>
          let r := parseSingleCondition (stripL p) var
          if optTruthy r then r else none)
       if parsed.isEmpty then none else some (joinSep (str ", ") parsed)) ∧
    ((parseComplexConditions cond var).isSome = true ↔
      ∃ p ∈ reSplitWord (str "and") cond,
        optTruthy (parseSingleCondition (stripL p) var) = true) := by
  have heq : parseComplexConditions cond var =
      (let parsed := (reSplitWord (str "and") cond).filterMap (fun p =>
          let r := parseSingleCondition (stripL p) var
          if optTruthy r then r else none)
       if parsed.isEmpty then none else some (joinSep (str ", ") parsed)) := by
    unfold parseComplexConditions
    rw [if_pos hand]
  refine ⟨heq, ?_⟩
  rw [heq]
  simp only []
  cases hemp : ((reSplitWord (str "and") cond).filterMap (fun p =>
      let r := parseSingleCondition (stripL p) var
      if optTruthy r then r else none)).isEmpty
  · simp only [Bool.false_eq_true, if_false, Option.isSome_some]
    constructor
    · intro _
      have hne := (List.isEmpty_eq_false_iff_exists_mem ..).mp hemp
      obtain ⟨x, hx⟩ := hne
      obtain ⟨p, hp, hpx⟩ := List.mem_filterMap.mp hx
      refine ⟨p, hp, ?_⟩
      simp only [] at hpx
      cases hb : optTruthy (parseSingleCondition (stripL p) var)
      · rw [hb] at hpx
        simp at hpx
      · rfl
    · intro _; trivial
  · simp only [if_true]
    constructor
    · intro h
      simp at h
    · rintro ⟨p, hp, htr⟩
      exfalso
      have hall := List.isEmpty_iff.mp hemp
      have : (let r := parseSingleCondition (stripL p) var
              if optTruthy r then r else none) = none := by
        have := List.filterMap_eq_nil.mp hall
        exact this p hp
      simp only [] at this
      rw [truthyFilter_none_iff] at this
      rw [htr] at this
      exact absurd this (by simp)

/-- C2 witness: the amended characterization applied to the mixed
condition of the counterexample, showing it translates. -/
theorem C2_amended_witness :
    (parseComplexConditions (str "X is rich and X is tall or X is smart")
      (str "X")).isSome = true :=
  (C2_amended (str "X is rich and X is tall or X is smart") (str "X")
      (by decide) (by decide)).2.mpr
    ⟨str "X is rich", by decide, by decide⟩

/-- C4 amended.  In the conjunction branch the untranslatable conjuncts
are silently dropped: the rule body keeps exactly the conjuncts that
translate, and the whole condition fails only when every conjunct fails. -/
theorem C4_amended (cond var : List Char)
    (hand : strIn (str " and ") (lowerL cond) = true) :
    (parseComplexConditions cond var = none ↔
      ∀ p ∈ reSplitWord (str "and") cond,
        optTruthy (parseSingleCondition (stripL p) var) = false) ∧
    (∀ body, parseComplexConditions cond var = some body →
      body = joinSep (str ", ")
        ((reSplitWord (str "and") cond).filterMap (fun p =>
          let r := parseSingleCondition (stripL p) var
          if optTruthy r then r else none))) := by
  have heq : parseComplexConditions cond var =
      (let parsed := (reSplitWord (str "and") cond).filterMap (fun p =>
          let r := parseSingleCondition (stripL p) var
          if optTruthy r then r else none)
       if parsed.isEmpty then none else some (joinSep (str ", ") parsed)) := by
    unfold parseComplexConditions
    rw [if_pos hand]
  rw [heq]
  simp only []
  cases hemp : ((reSplitWord (str "and") cond).filterMap (fun p =>
      let r := parseSingleCondition (stripL p) var
      if optTruthy r then r else none)).isEmpty
  · simp only [Bool.false_eq_true, if_false]
    constructor
    · constructor
      · intro h; exact absurd h (by simp)
      · intro hall
        exfalso
        have hnil : ((reSplitWord (str "and") cond).filterMap (fun p =>
            let r := parseSingleCondition (stripL p) var
            if optTruthy r then r else none)) = [] := by
          apply List.filterMap_eq_nil.mpr
          intro p hp
          simp only []
          exact (truthyFilter_none_iff _).mpr (hall p hp)
        rw [hnil] at hemp
        simp at hemp
    · intro body hb
      exact (Option.some_inj.mp hb).symm
  · simp only [if_true]
    constructor
    · constructor
      · intro _
        intro p hp
        have hall := List.isEmpty_iff.mp hemp
        have h2 := List.filterMap_eq_nil.mp hall p hp
        simp only [] at h2
        rwa [truthyFilter_none_iff] at h2
      · intro _; trivial
    · intro body hb
      exact absurd hb (by simp)

/-- C5 amended.  In the eligibility rule form the head variable is not the
verbatim upper-cased subject: it is the upper-cased subject only when that
is one of `X`, `Y`, `Z`, and the default `X` otherwise. -/
theorem C5_amended (rule e b c body var : List Char)
    (hm : matchEligibleRule (rstripAll '.' (stripL rule)) = some (e, b, c))
    (hvar : var = (if [str "X", str "Y", str "Z"].contains (upperL (stripL e))
                   then upperL (stripL e) else str "X"))
    (hbody : parseComplexConditions (stripL c) var = some body)
    (hne : body ≠ []) :
    ace_to_prolog_rule rule =
      some ((str "eligible(" ++ var ++ str ", " ++ normalize_entity (stripL b) ++
             str ")") ++ str " :- " ++ body) := by
  unfold ace_to_prolog_rule
  simp only []
  rw [hm]
  simp only []
  rw [← hvar, hbody]
  have htr : optTruthy (some body) = true := by
    unfold optTruthy
    cases body with
    | nil => exact absurd rfl hne
    | cons x t => rfl
  rw [htr]
  simp

/-- C5 witness: the amended statement at the counterexample input, where
the subject `Someone` yields head variable `X`. -/
theorem C5_amended_witness :
    ace_to_prolog_rule
      (str "Someone is eligible for Kindergeld if Someone likes chocolate.") =
      some ((str "eligible(" ++ str "X" ++ str ", " ++
             normalize_entity (stripL (str "Kindergeld")) ++ str ")") ++
            str " :- " ++ str "likes(someone, chocolate)") :=
  C5_amended (str "Someone is eligible for Kindergeld if Someone likes chocolate.")
    (str "Someone") (str "Kindergeld") (str "Someone likes chocolate")
    (str "likes(someone, chocolate)") (str "X")
    (by decide) (by decide) (by decide) (by decide)

/-- C3 counterexample.  The enhanced parser (the one imported by the test
suite) rejects the If-then form: `If X likes chocolate then X is happy.`
matches the supported templates of the claim yet translates to `None`
instead of `happy(X) :- likes(X, chocolate)`. -/
theorem C3_counterexample :
    ace_to_prolog_rule (str "If X likes chocolate then X is happy.") = none := by
  decide

/-- C3 amended.  The `If <condition> then <conclusion>.` form is supported
only by the legacy parser module: when the legacy branch guards hold (no
` if ` in the lowered text, text starts with `if `, contains ` then `),
the first ` then ` split succeeds and both parts convert to non-empty
predicates, the legacy translator emits `<head> :- <body>`; the enhanced
parser returns `None` on such inputs. -/
theorem C3_amended (text p0 p1 condP conclP : List Char)
    (h1 : strIn (str " if ") (lowerL (rstripAll '.' (stripL text))) = false)
    (h2 : (str "if ").isPrefixOf (lowerL (rstripAll '.' (stripL text))) = true)
    (h3 : strIn (str " then ") (lowerL (rstripAll '.' (stripL text))) = true)
    (h4 : splitFirst (str " then ") (rstripAll '.' (stripL text)) = some (p0, p1))
    (h5 : Legacy.convertExpr (stripL (p0.drop 3)) = some condP)
    (h6 : Legacy.convertExpr (stripL p1) = some conclP)
    (h7 : condP ≠ []) (h8 : conclP ≠ []) :
    Legacy.ace_to_prolog_rule text = some (conclP ++ str " :- " ++ condP) := by
  unfold Legacy.ace_to_prolog_rule
  simp only []
  rw [h1]
  simp only [Bool.false_eq_true, if_false]
  rw [h2, h3]
  simp only [Bool.and_self, if_true]
  rw [h4]
  simp only []
  rw [h5, h6]
  have htc : optTruthy (some condP) = true := by
    unfold optTruthy
    cases condP with
    | nil => exact absurd rfl h7
    | cons x t => rfl
  have hth : optTruthy (some conclP) = true := by
    unfold optTruthy
    cases conclP with
    | nil => exact absurd rfl h8
    | cons x t => rfl
  rw [htc, hth]
  simp

/-- C3 witness: the amended statement at
`If X likes chocolate then X is happy.`. -/
theorem C3_amended_witness :
    Legacy.ace_to_prolog_rule (str "If X likes chocolate then X is happy.") =
      some (str "happy(X)" ++ str " :- " ++ str "likes(X, chocolate)") :=
  C3_amended (str "If X likes chocolate then X is happy.")
    (str "If X likes chocolate") (str "X is happy")
    (str "likes(X, chocolate)") (str "happy(X)")
    (by decide) (by decide) (by decide) (by decide) (by decide) (by decide)
    (by decide) (by decide)

example : (parse_statement (str "Is John happy?")).statement_type = "query" := by decide

example : (parse_statement (str "X is happy if X likes chocolate.")).statement_type = "rule" := by decide

example : (parse_statement (str "John is a person.")).statement_type = "fact" := by decide

example : (parse_statement (str "hello")).content = str "hello." := by decide

example : (parse_statement (str "If X likes chocolate then X is happy.")).statement_type = "rule" := by decide

/-! ## Classification lemmas and C1 -/

theorem pyLower_fix_iff {c d : Char} (hd : d.toNat < 97 ∨ 122 < d.toNat)
    (hu : isUpperAZ d = false) : pyLower c = d ↔ c = d := by
  constructor
  · intro h
    rcases pyLower_spec c with ⟨h1, h2, h3⟩ | ⟨_, h4⟩
    · exfalso
      rw [h] at h3
      rcases hd with hd | hd <;> omega
    · rw [← h4, h]
  · intro h
    subst h
    exact pyLower_eq_self hu

theorem pyLower_eq_nl {c : Char} : pyLower c = '\n' ↔ c = '\n' :=
  pyLower_fix_iff (Or.inl (by decide)) (by decide)

theorem pyLower_eq_qm {c : Char} : pyLower c = '?' ↔ c = '?' :=
  pyLower_fix_iff (Or.inl (by decide)) (by decide)

theorem beq_pyLower_fix {c d : Char} (hd : d.toNat < 97 ∨ 122 < d.toNat)
    (hu : isUpperAZ d = false) : (pyLower c == d) = (c == d) := by
  cases h : c == d
  · rw [beq_eq_false_iff_ne]
    intro hh
    exact (beq_eq_false_iff_ne.mp h) ((pyLower_fix_iff hd hu).mp hh)
  · have hc := beq_iff_eq.mp h
    subst hc
    rw [beq_iff_eq]
    exact pyLower_eq_self hu

theorem all_congr_chars {p q : Char → Bool} {s : List Char}
    (h : ∀ c ∈ s, p c = q c) : s.all p = s.all q := by
  induction s with
  | nil => rfl
  | cons c t ih =>
      simp only [List.all_cons, h c (List.mem_cons_self _ _),
        ih (fun d hd => h d (List.mem_cons_of_mem _ hd))]

theorem nlFree_lowerL (s : List Char) : nlFree (lowerL s) = nlFree s := by
  unfold nlFree lowerL
  rw [List.all_map]
  apply all_congr_chars
  intro c _
  show (pyLower c != '\n') = (c != '\n')
  unfold bne
  rw [beq_pyLower_fix (Or.inl (by decide)) (by decide)]

theorem nlFree_append (a b : List Char) :
    nlFree (a ++ b) = (nlFree a && nlFree b) := by
  unfold nlFree
  exact List.all_append

theorem dollarStrip_lowerL (t : List Char) :
    dollarStrip (lowerL t) = lowerL (dollarStrip t) := by
  unfold dollarStrip
  rw [show (lowerL t).getLast? = t.getLast?.map pyLower from List.getLast?_map ..]
  cases hl : t.getLast? with
  | none => rfl
  | some c =>
      show (if (some (pyLower c) == some '\n') = true then (lowerL t).dropLast
            else lowerL t) =
           lowerL (if (some c == some '\n') = true then t.dropLast else t)
      cases hc : c == '\n'
      · have h1 : (some (pyLower c) == some '\n') = false := by
          rw [beq_eq_false_iff_ne] at hc ⊢
          intro hh
          exact hc (pyLower_eq_nl.mp (Option.some_inj.mp hh))
        have h2 : (some c == some '\n') = false := by
          rw [beq_eq_false_iff_ne] at hc ⊢
          intro hh
          exact hc (Option.some_inj.mp hh)
        rw [h1, h2]
        simp
      · have hcc := beq_iff_eq.mp hc
        subst hcc
        have h1 : (some (pyLower '\n') == some '\n') = true := by decide
        have h2 : ((some '\n' : Option Char) == some '\n') = true := by decide
        rw [h1, h2]
        simp only [if_true]
        exact (List.map_dropLast ..).symm

theorem endAnchor_lowerL (t : List Char) :
    endAnchor '?' (lowerL t) = (endAnchor '?' t).map lowerL := by
  unfold endAnchor
  simp only []
  rw [dollarStrip_lowerL]
  rw [show (lowerL (dollarStrip t)).getLast? = (dollarStrip t).getLast?.map pyLower from
        List.getLast?_map ..]
  cases hl : (dollarStrip t).getLast? with
  | none => rfl
  | some c =>
      show (if (pyLower c == '?') = true then some (lowerL (dollarStrip t)).dropLast
            else none) =
           Option.map lowerL (if (c == '?') = true then some (dollarStrip t).dropLast
            else none)
      rw [beq_pyLower_fix (Or.inl (by decide)) (by decide)]
      cases hc : c == '?'
      · rfl
      · show some ((lowerL (dollarStrip t)).dropLast) =
            some (lowerL ((dollarStrip t).dropLast))
        exact congrArg some (List.map_dropLast ..).symm

theorem qp1_lowerL (t : List Char) : qp1 (lowerL t) = qp1 t := by
  unfold qp1
  rw [endAnchor_lowerL]
  cases he : endAnchor '?' t with
  | none => rfl
  | some body =>
      show (!(lowerL body).isEmpty && nlFree (lowerL body)) = (!body.isEmpty && nlFree body)
      rw [nlFree_lowerL]
      congr 1
      cases body <;> rfl

theorem qp1_of_body {t body : List Char} (h : endAnchor '?' (lowerL t) = some body)
    (h1 : body ≠ []) (h2 : nlFree body = true) : qp1 t = true := by
  rw [← qp1_lowerL]
  unfold qp1
  rw [h]
  show (!body.isEmpty && nlFree body) = true
  rw [h2]
  cases body with
  | nil => exact absurd rfl h1
  | cons c u => rfl

theorem dpChain_props : ∀ (seps : List (List Char)) (s : List Char),
    (∀ x ∈ seps, nlFree x = true) → dpChain seps s = true →
    s ≠ [] ∧ nlFree s = true
  | [], s, _, h => by
      unfold dpChain at h
      rw [Bool.and_eq_true] at h
      exact ⟨by intro he; subst he; simp at h, h.2⟩
  | sep :: seps, s, hseps, h => by
      unfold dpChain at h
      rw [List.any_eq_true] at h
      obtain ⟨i, hi, hcond⟩ := h
      simp only [Bool.and_eq_true] at hcond
      obtain ⟨⟨⟨ha1, ha2⟩, hp⟩, hrec⟩ := hcond
      obtain ⟨hne', hnl'⟩ := dpChain_props seps ((s.drop i).drop sep.length)
        (fun x hx => hseps x (List.mem_cons_of_mem _ hx)) hrec
      have hpre : sep ++ (s.drop i).drop sep.length = s.drop i :=
        List.prefix_iff_eq_append.mp (List.isPrefixOf_iff_prefix.mp hp)
      constructor
      · intro he
        subst he
        simp at hi
      · have hs : s = s.take i ++ s.drop i := (List.take_append_drop ..).symm
        rw [hs, nlFree_append, ← hpre, nlFree_append]
        rw [ha2, hseps sep (List.mem_cons_self _ _), hnl']
        rfl

theorem dpEndLit_props {endLit s : List Char} (hnl : nlFree endLit = true)
    (h : dpEndLit endLit s = true) : s ≠ [] ∧ nlFree s = true := by
  unfold dpEndLit at h
  simp only [Bool.and_eq_true, decide_eq_true_eq, beq_iff_eq] at h
  obtain ⟨⟨hlen, hdrop⟩, htake⟩ := h
  constructor
  · intro he
    subst he
    simp at hlen
  · have hs : s = s.take (s.length - endLit.length) ++ s.drop (s.length - endLit.length) :=
      (List.take_append_drop ..).symm
    rw [hs, nlFree_append, htake, hdrop, hnl]
    rfl

theorem dpChainEnd_props : ∀ (seps : List (List Char)) (endLit s : List Char),
    (∀ x ∈ seps, nlFree x = true) → nlFree endLit = true →
    dpChainEnd seps endLit s = true → s ≠ [] ∧ nlFree s = true
  | [], endLit, s, _, hnl, h => dpEndLit_props hnl h
  | sep :: seps, endLit, s, hseps, hnl, h => by
      unfold dpChainEnd at h
      rw [List.any_eq_true] at h
      obtain ⟨i, hi, hcond⟩ := h
      simp only [Bool.and_eq_true] at hcond
      obtain ⟨⟨⟨ha1, ha2⟩, hp⟩, hrec⟩ := hcond
      obtain ⟨hne', hnl'⟩ := dpChainEnd_props seps endLit ((s.drop i).drop sep.length)
        (fun x hx => hseps x (List.mem_cons_of_mem _ hx)) hnl hrec
      have hpre : sep ++ (s.drop i).drop sep.length = s.drop i :=
        List.prefix_iff_eq_append.mp (List.isPrefixOf_iff_prefix.mp hp)
      constructor
      · intro he
        subst he
        simp at hi
      · have hs : s = s.take i ++ s.drop i := (List.take_append_drop ..).symm
        rw [hs, nlFree_append, ← hpre, nlFree_append]
        rw [ha2, hseps sep (List.mem_cons_self _ _), hnl']
        rfl

theorem body_props_of_pre {pre body : List Char} (hpre : pre.isPrefixOf body = true)
    (hprenl : nlFree pre = true) (hpne : pre ≠ [])
    (hu : nlFree (body.drop pre.length) = true) :
    body ≠ [] ∧ nlFree body = true := by
  have hp := List.prefix_iff_eq_append.mp (List.isPrefixOf_iff_prefix.mp hpre)
  constructor
  · intro hbe
    subst hbe
    exact hpne (List.prefix_nil.mp (List.isPrefixOf_iff_prefix.mp hpre))
  · rw [← hp, nlFree_append, hprenl, hu]
    rfl

theorem qp2_implies {t : List Char} (h : qp2 t = true) : qp1 t = true := by
  unfold qp2 at h
  cases he : endAnchor '?' (lowerL t) with
  | none => rw [he] at h; simp at h
  | some body =>
      rw [he] at h
      rw [List.any_eq_true] at h
      obtain ⟨w, hw, hcond⟩ := h
      simp only [Bool.and_eq_true] at hcond
      obtain ⟨hpre, hrest⟩ := hcond
      have hnlw : nlFree (w ++ [' ']) = true := by
        have hall : ∀ x ∈ qWords, nlFree (x ++ [' ']) = true := by decide
        exact hall w hw
      have hlen : (w ++ [' ']).length = w.length + 1 := by simp
      obtain ⟨h1, h2⟩ := body_props_of_pre hpre hnlw (by simp)
        (by rw [hlen]; exact hrest.2)
      exact qp1_of_body he h1 h2

theorem qp3_implies {t : List Char} (h : qp3 t = true) : qp1 t = true := by
  unfold qp3 at h
  cases he : endAnchor '?' (lowerL t) with
  | none => rw [he] at h; simp at h
  | some body =>
      rw [he] at h
      rw [Bool.and_eq_true] at h
      obtain ⟨hpre, hdp⟩ := h
      obtain ⟨hne, hnl⟩ := dpChain_props _ _ (by decide) hdp
      obtain ⟨h1, h2⟩ := body_props_of_pre hpre (by decide) (by decide)
        (by show nlFree (body.drop 3) = true; exact hnl)
      exact qp1_of_body he h1 h2

theorem qp4_implies {t : List Char} (h : qp4 t = true) : qp1 t = true := by
  unfold qp4 at h
  cases he : endAnchor '?' (lowerL t) with
  | none => rw [he] at h; simp at h
  | some body =>
      rw [he] at h
      rw [Bool.and_eq_true] at h
      obtain ⟨hpre, hdp⟩ := h
      obtain ⟨hne, hnl⟩ := dpEndLit_props (by decide) hdp
      obtain ⟨h1, h2⟩ := body_props_of_pre hpre (by decide) (by decide)
        (by show nlFree (body.drop 19) = true; exact hnl)
      exact qp1_of_body he h1 h2

theorem qp5_implies {t : List Char} (h : qp5 t = true) : qp1 t = true := by
  unfold qp5 at h
  cases he : endAnchor '?' (lowerL t) with
  | none => rw [he] at h; simp at h
  | some body =>
      rw [he] at h
      rw [Bool.and_eq_true] at h
      obtain ⟨hpre, hdp⟩ := h
      obtain ⟨hne, hnl⟩ := dpChainEnd_props _ _ _ (by decide) (by decide) hdp
      obtain ⟨h1, h2⟩ := body_props_of_pre hpre (by decide) (by decide)
        (by show nlFree (body.drop 9) = true; exact hnl)
      exact qp1_of_body he h1 h2

theorem qp6_implies {t : List Char} (h : qp6 t = true) : qp1 t = true := by
  unfold qp6 at h
  cases he : endAnchor '?' (lowerL t) with
  | none => rw [he] at h; simp at h
  | some body =>
      rw [he] at h
      rw [Bool.and_eq_true] at h
      obtain ⟨hpre, hdp⟩ := h
      obtain ⟨hne, hnl⟩ := dpChain_props _ _ (by decide) hdp
      obtain ⟨h1, h2⟩ := body_props_of_pre hpre (by decide) (by decide)
        (by show nlFree (body.drop 6) = true; exact hnl)
      exact qp1_of_body he h1 h2

theorem query_patterns_iff_qp1 (t : List Char) :
    query_patterns_match t = true ↔ qp1 t = true := by
  constructor
  · intro h
    unfold query_patterns_match at h
    simp only [Bool.or_eq_true] at h
    rcases h with ((((h|h)|h)|h)|h)|h
    · exact h
    · exact qp2_implies h
    · exact qp3_implies h
    · exact qp4_implies h
    · exact qp5_implies h
    · exact qp6_implies h
  · intro h
    unfold query_patterns_match
    rw [h]
    rfl

theorem head?_dropWhile_false {p : Char → Bool} {l : List Char} {c : Char}
    (h : (l.dropWhile p).head? = some c) : p c = false := by
  induction l with
  | nil => simp [List.dropWhile] at h
  | cons d t ih =>
      rw [List.dropWhile_cons] at h
      by_cases hd : p d = true
      · rw [if_pos hd] at h
        exact ih h
      · rw [if_neg hd] at h
        have hdc : d = c := by simpa using h
        subst hdc
        exact bool_eq_false hd

theorem getLast?_stripL_not_ws {s : List Char} {c : Char}
    (h : (stripL s).getLast? = some c) : isPyWs c = false := by
  unfold stripL at h
  rw [List.getLast?_reverse] at h
  exact head?_dropWhile_false h

theorem dollarStrip_stripL (s : List Char) : dollarStrip (stripL s) = stripL s := by
  unfold dollarStrip
  cases hl : (stripL s).getLast? with
  | none => rfl
  | some c =>
      have hws := getLast?_stripL_not_ws hl
      have hc : (some c == some '\n') = false := by
        rw [beq_eq_false_iff_ne]
        intro hh
        have hcc := Option.some_inj.mp hh
        subst hcc
        simp [isPyWs] at hws
      rw [hc]
      simp

theorem parse_statement_query_iff (text : List Char) :
    (parse_statement text).statement_type = "query" ↔
      query_patterns_match (stripL text) = true := by
  unfold parse_statement
  simp only []
  cases h : query_patterns_match (stripL text)
  · simp only [Bool.false_eq_true, if_false]
    constructor
    · intro hq
      split at hq
      · simp at hq
      · split at hq
        · simp at hq
        · simp at hq
    · intro hh
      exact absurd hh (by simp)
  · simp

/-- C1 counterexample.  A line that starts with the interrogative word
`Is` but lacks the trailing `?` is classified as a Fact, not a Query: all
six query regexes require a final `?`. -/
theorem C1_counterexample :
    (parse_statement (str "Is John happy.")).statement_type = "fact" ∧
    (parse_statement (str "Is John happy.")).statement_type ≠ "query" := by
  refine ⟨by decide, by decide⟩

/-- C1 amended.  `parse_statement` classifies a line as Query exactly when
the trimmed line matches `.+\?$`: its last character is `?` preceded by at
least one character with no newline among them.  An interrogative lead
word alone never makes a Query — every query pattern requires the trailing
`?`. -/
theorem C1_amended (text : List Char) :
    (parse_statement text).statement_type = "query" ↔
      ((stripL text).getLast? = some '?' ∧ 2 ≤ (stripL text).length ∧
       nlFree ((stripL text).dropLast) = true) := by
  rw [parse_statement_query_iff, query_patterns_iff_qp1]
  unfold qp1 endAnchor
  simp only []
  rw [dollarStrip_stripL]
  cases hl : (stripL text).getLast? with
  | none =>
      constructor
      · intro h
        simp at h
      · rintro ⟨h1, _⟩
        exact absurd h1 (by simp)
  | some c =>
      by_cases hc : c = '?'
      · subst hc
        show ((!(stripL text).dropLast.isEmpty && nlFree ((stripL text).dropLast)) = true) ↔
          (some '?' = some '?' ∧ 2 ≤ (stripL text).length ∧
           nlFree ((stripL text).dropLast) = true)
        constructor
        · intro h
          rw [Bool.and_eq_true] at h
          refine ⟨rfl, ?_, h.2⟩
          have hd : (stripL text).dropLast ≠ [] := by
            intro hh
            rw [hh] at h
            simp at h
          have hp := List.length_pos.mpr hd
          rw [List.length_dropLast] at hp
          omega
        · rintro ⟨_, h2, h3⟩
          rw [Bool.and_eq_true]
          refine ⟨?_, h3⟩
          have hlen : (stripL text).dropLast.length = (stripL text).length - 1 :=
            List.length_dropLast ..
          cases hdl : (stripL text).dropLast with
          | nil =>
              rw [hdl] at hlen
              simp at hlen
              omega
          | cons x u => rfl
      · have hb : (c == '?') = false := beq_eq_false_iff_ne.mpr hc
        show ((match (if (c == '?') = true then some ((stripL text).dropLast) else none) with
               | some body => !body.isEmpty && nlFree body
               | none => false) = true) ↔
          (some c = some '?' ∧ 2 ≤ (stripL text).length ∧
           nlFree ((stripL text).dropLast) = true)
        rw [hb]
        simp only [Bool.false_eq_true, if_false]
        constructor
        · intro h
          exact absurd h (by decide)
        · rintro ⟨h1, _⟩
          exact hc (Option.some_inj.mp h1)

example : ace_to_prolog_fact (str "Hans is a person.") = some (str "person(hans)") := by decide

example : ace_to_prolog_fact (str "Hans earns 2500.50 euros per month.") =
    some (str "income(hans, 2500.50, month)") := by decide

example : ace_to_prolog_fact (str "Hans was born on 1985-06-15.") =
    some (str "birth_date(hans, date(1985, 06, 15))") := by decide

example : ace_to_prolog_fact (str "Hans lives in Germany.") =
    some (str "residence(hans, germany)") := by decide

example : ace_to_prolog_fact (str "Hans has 2 children.") =
    some (str "children_count(hans, 2)") := by decide

example : ace_to_prolog_fact (str "Hans is married.") =
    some (str "marital_status(hans, married)") := by decide

example : ace_to_prolog_fact (str "Hans is employed.") =
    some (str "employment_status(hans, employed)") := by decide

example : ace_to_prolog_fact (str "Hans has German citizenship.") =
    some (str "citizenship(hans, german)") := by decide

example : ace_to_prolog_fact (str "Bob has age 25.") =
    some (str "has_property(bob, age, 25)") := by decide

example : ace_to_prolog_fact (str "Mary likes chocolate.") =
    some (str "likes(mary, chocolate)") := by decide

example : ace_to_prolog_fact (str "Mary is happy.") = some (str "happy(mary)") := by decide

example : ace_to_prolog_query (str "Is John happy?") =
    Except.ok (some (str "happy(john)")) := rfl

example : ace_to_prolog_query (str "Who is happy?") =
    Except.ok (some (str "happy(X)")) := rfl

example : ace_to_prolog_query (str "What does John like?") =
    Except.ok (some (str "likes(john, X)")) := rfl

example : ace_to_prolog_query (str "Is Hans eligible for Kindergeld?") =
    Except.ok (some (str "eligible(hans, kindergeld)")) := rfl

example : ace_to_prolog_query (str "How much income does Hans earn?") =
    Except.ok (some (str "income(hans, X, _)")) := rfl

example : ace_to_prolog_query (str "Where is John?") = Except.ok none := rfl

example : ace_to_prolog_query (str "Is John very happy?") =
    Except.ok (some (str "very(john)")) := rfl

/-- C9.  Classification is total: every input is labelled `query`, `rule`
or `fact`; and every translate-level call returns an explicit value —
`ace_to_prolog_query` never reaches the unguarded `.group(...)` calls
(never `Except.error`), and the fact/rule translators return `Option`
results for every input. -/
theorem C9_totality :
    (∀ text : List Char,
       (parse_statement text).statement_type = "query" ∨
       (parse_statement text).statement_type = "rule" ∨
       (parse_statement text).statement_type = "fact") ∧
    (∀ q : List Char, ∃ r, ace_to_prolog_query q = Except.ok r) ∧
    (∀ s : List Char, ace_to_prolog_fact s = none ∨ ∃ r, ace_to_prolog_fact s = some r) ∧
    (∀ s : List Char, ace_to_prolog_rule s = none ∨ ∃ r, ace_to_prolog_rule s = some r) := by
  refine ⟨?_, ?_, ?_, ?_⟩
  · intro text
    unfold parse_statement
    simp only []
    split
    · exact Or.inl rfl
    · split
      · exact Or.inr (Or.inl rfl)
      · split
        · exact Or.inr (Or.inr rfl)
        · exact Or.inr (Or.inr rfl)
  · intro q0
    unfold ace_to_prolog_query parse_query_type
    simp only []
    by_cases h1 : (str "is ").isPrefixOf (lowerL (rstripAll '?' (stripL q0))) = true
    · rw [if_pos h1]
      cases hm : matchIsElig (lowerL (rstripAll '?' (stripL q0))) with
      | some p =>
          cases p with
          | mk e b => exact ⟨_, rfl⟩
      | none =>
          cases hm2 : matchTwoIdents (stripL ((rstripAll '?' (stripL q0)).drop 3)) with
          | some p =>
              cases p with
              | mk w1 w2 => exact ⟨_, rfl⟩
          | none => exact ⟨_, rfl⟩
    · rw [if_neg h1]
      by_cases h2 : (str "who is ").isPrefixOf (lowerL (rstripAll '?' (stripL q0))) = true
      · rw [if_pos h2]
        exact ⟨_, rfl⟩
      · rw [if_neg h2]
        cases h3 : matchWhatDoesLike (lowerL (rstripAll '?' (stripL q0))) with
        | some e => exact ⟨_, rfl⟩
        | none =>
            cases h4 : matchWhatBenefits (lowerL (rstripAll '?' (stripL q0))) with
            | some e => exact ⟨_, rfl⟩
            | none =>
                cases h5 : matchWhichElig (lowerL (rstripAll '?' (stripL q0))) with
                | some p =>
                    cases p with
                    | mk a b => exact ⟨_, rfl⟩
                | none =>
                    cases h6 : matchHowMuch (lowerL (rstripAll '?' (stripL q0))) with
                    | some p =>
                        obtain ⟨bt, e, act⟩ := p
                        simp only [Option.isSome_none, Option.isSome_some,
                          Bool.false_eq_true, if_false, if_true]
                        by_cases hc1 : (act == str "earn" && normalize_entity bt == str "income") = true
                        · rw [if_pos hc1]
                          exact ⟨_, rfl⟩
                        · rw [if_neg hc1]
                          by_cases hc2 : (act == str "earn") = true
                          · rw [if_pos hc2]
                            exact ⟨_, rfl⟩
                          · rw [if_neg hc2]
                            exact ⟨_, rfl⟩
                    | none => exact ⟨_, rfl⟩
  · intro s
    cases h : ace_to_prolog_fact s with
    | none => exact Or.inl rfl
    | some r => exact Or.inr ⟨r, rfl⟩
  · intro s
    cases h : ace_to_prolog_rule s with
    | none => exact Or.inl rfl
    | some r => exact Or.inr ⟨r, rfl⟩

/-! ## Lemmas for C10 -/

theorem stripL_no_strip {c d : Char} {m : List Char} (hc : isPyWs c = false)
    (hd : isPyWs d = false) : stripL (c :: (m ++ [d])) = c :: (m ++ [d]) := by
  unfold stripL
  rw [List.dropWhile_cons, if_neg (by simp [hc])]
  rw [show (c :: (m ++ [d])).reverse = d :: (m.reverse ++ [c]) from by simp]
  rw [List.dropWhile_cons, if_neg (by simp [hd])]
  simp

theorem rstripAll_append_one {s : List Char} {c : Char} (h : s.getLast? ≠ some c) :
    rstripAll c (s ++ [c]) = s := by
  unfold rstripAll
  rw [show (s ++ [c]).reverse = c :: s.reverse from by simp]
  rw [List.dropWhile_cons, if_pos (by simp)]
  have hdw : s.reverse.dropWhile (· == c) = s.reverse := by
    cases hr : s.reverse with
    | nil => rfl
    | cons d u =>
        rw [List.dropWhile_cons]
        rw [if_neg]
        intro hdc
        have hd : d = c := by simpa using hdc
        subst hd
        apply h
        rw [← List.head?_reverse, hr]
        rfl
  rw [hdw, List.reverse_reverse]

theorem strIn_of_drop {sep s : List Char} (i : Nat)
    (h : sep.isPrefixOf (s.drop i) = true) : strIn sep s = true := by
  induction s generalizing i with
  | nil =>
      unfold strIn
      rw [List.drop_nil] at h
      cases sep with
      | nil => rfl
      | cons a b => simp [List.isPrefixOf] at h
  | cons c t ih =>
      cases i with
      | zero =>
          unfold strIn
          rw [List.drop_zero] at h
          rw [h]
          rfl
      | succ j =>
          unfold strIn
          rw [List.drop_succ_cons] at h
          rw [ih j h]
          simp

theorem strIn_append_left {pat b : List Char} (a : List Char)
    (h : strIn pat b = true) : strIn pat (a ++ b) = true := by
  induction a with
  | nil => exact h
  | cons c t ih =>
      rw [List.cons_append]
      unfold strIn
      rw [ih]
      simp

theorem splitLastDP_eq_none {sep s : List Char} (h : strIn sep s = false) :
    splitLastDP sep s = none := by
  cases hm : splitLastDP sep s with
  | none => rfl
  | some p =>
      exfalso
      unfold splitLastDP at hm
      obtain ⟨i, hi, hf⟩ := List.exists_of_findSome?_eq_some hm
      simp only [] at hf
      by_cases hc : (!(s.take i).isEmpty && nlFree (s.take i) &&
          sep.isPrefixOf (s.drop i)) = true
      · simp only [Bool.and_eq_true] at hc
        rw [strIn_of_drop i hc.2] at h
        exact absurd h (by simp)
      · rw [if_neg hc] at hf
        exact absurd hf (by simp)

theorem takeWhile_append_stop {p : Char → Bool} {a : List Char} {c : Char} {b : List Char}
    (ha : ∀ x ∈ a, p x = true) (hc : p c = false) :
    (a ++ c :: b).takeWhile p = a := by
  induction a with
  | nil => simp [List.takeWhile_cons, hc]
  | cons d t ih =>
      rw [List.cons_append, List.takeWhile_cons, if_pos (ha d (List.mem_cons_self _ _))]
      rw [ih (fun x hx => ha x (List.mem_cons_of_mem _ hx))]

theorem takeWhile_all_eq {p : Char → Bool} {a : List Char}
    (ha : ∀ x ∈ a, p x = true) : a.takeWhile p = a := by
  induction a with
  | nil => rfl
  | cons d t ih =>
      rw [List.takeWhile_cons, if_pos (ha d (List.mem_cons_self _ _))]
      rw [ih (fun x hx => ha x (List.mem_cons_of_mem _ hx))]

theorem isIdentTok_props {w : List Char} (h : isIdentTok w = true) :
    ∃ a t, w = a :: t ∧ isAsciiAlpha a = true ∧ ∀ x ∈ t, wordChar x = true := by
  cases w with
  | nil => simp [isIdentTok] at h
  | cons a t =>
      unfold isIdentTok at h
      rw [Bool.and_eq_true] at h
      exact ⟨a, t, rfl, h.1, fun x hx => List.all_eq_true.mp h.2 x hx⟩

theorem wordChar_of_alpha {c : Char} (h : isAsciiAlpha c = true) : wordChar c = true := by
  unfold wordChar
  rw [h]
  rfl

theorem wordChar_not_wsHyphen {c : Char} (h : wordChar c = true) :
    isWsHyphen c = false := by
  unfold wordChar isAsciiAlpha at h
  simp only [Bool.or_eq_true] at h
  rcases h with ((hl | hu) | hd) | he
  · exact isWsHyphen_false_of_ge (by have := isLowerAZ_iff.mp hl; omega)
  · exact isWsHyphen_false_of_ge (by have := isUpperAZ_iff.mp hu; omega)
  · exact isWsHyphen_false_of_ge (by have := isDigitC_iff.mp hd; omega)
  · have := beq_iff_eq.mp he
    subst this
    decide

theorem normalize_wordTok {w : List Char} (h : ∀ c ∈ w, wordChar c = true) :
    normalize_entity w = lowerL w := by
  rw [normalize_entity_eq]
  rw [stripL_eq_self
    (fun c hc => isPyWs_false_of_wsHyphen_false (wordChar_not_wsHyphen (h c hc)))]
  unfold collapseWsHyphen
  apply collapseAux_eq_self
  intro c hc
  obtain ⟨d, hd1, hd2⟩ := List.mem_map.mp hc
  rw [← hd2, isWsHyphen_pyLower]
  exact wordChar_not_wsHyphen (h d hd1)

theorem getLast?_append_ne {a b : List Char} (hb : b ≠ []) :
    (a ++ b).getLast? = b.getLast? := by
  induction a with
  | nil => rfl
  | cons c t ih =>
      rw [List.cons_append]
      cases he : t ++ b with
      | nil =>
          exfalso
          rcases List.append_eq_nil.mp he with ⟨-, h2⟩
          exact hb h2
      | cons d u =>
          rw [he] at ih
          rw [List.getLast?_cons_cons, ih]

theorem matchTwoIdents_spec {w1 w2 rest : List Char}
    (hw1 : isIdentTok w1 = true) (hw2 : isIdentTok w2 = true)
    (hrest : rest = [] ∨ ∃ c rs, rest = c :: rs ∧ wordChar c = false) :
    matchTwoIdents (w1 ++ (' ' :: (w2 ++ rest))) = some (w1, w2) := by
  obtain ⟨a1, t1, hw1e, ha1, ht1⟩ := isIdentTok_props hw1
  obtain ⟨a2, t2, hw2e, ha2, ht2⟩ := isIdentTok_props hw2
  subst hw1e
  subst hw2e
  show matchTwoIdents (a1 :: (t1 ++ (' ' :: ((a2 :: t2) ++ rest)))) = some (a1 :: t1, a2 :: t2)
  show (if isAsciiAlpha a1 = true then
          let run := (t1 ++ (' ' :: ((a2 :: t2) ++ rest))).takeWhile wordChar
          match (t1 ++ (' ' :: ((a2 :: t2) ++ rest))).drop run.length with
          | ' ' :: d :: rest2 =>
              if isAsciiAlpha d = true then
                some (a1 :: run, d :: rest2.takeWhile wordChar)
              else none
          | _ => none
        else none) = some (a1 :: t1, a2 :: t2)
  rw [if_pos ha1]
  simp only []
  rw [takeWhile_append_stop ht1 (by decide)]
  rw [List.drop_left]
  show (if isAsciiAlpha a2 = true then
          some (a1 :: t1, a2 :: (t2 ++ rest).takeWhile wordChar) else none) =
       some (a1 :: t1, a2 :: t2)
  rw [if_pos ha2]
  rcases hrest with hr | ⟨c, rs, hre, hcw⟩
  · subst hr
    rw [List.append_nil, takeWhile_all_eq ht2]
  · subst hre
    rw [takeWhile_append_stop ht2 hcw]

/-- C10.  For a query `Is <w1> <w2> <rest>?` whose first two words are
identifier tokens, whose remainder starts with a non-identifier character,
and which does not match the eligibility pattern, `ace_to_prolog_query`
builds the goal from only the first two words: `<w2>(<w1>)`, both
lowercased, discarding `<rest>`. -/
theorem C10_is_query_first_two_words (w1 w2 rest : List Char)
    (hw1 : isIdentTok w1 = true) (hw2 : isIdentTok w2 = true)
    (hrest : rest = [] ∨ ∃ c rs, rest = c :: rs ∧ wordChar c = false)
    (hstrip : stripL (w1 ++ (' ' :: (w2 ++ rest))) = w1 ++ (' ' :: (w2 ++ rest)))
    (hnq : (w2 ++ rest).getLast? ≠ some '?')
    (hel : strIn (str " eligible for ")
        (lowerL ('I' :: 's' :: ' ' :: (w1 ++ (' ' :: (w2 ++ rest))))) = false) :
    ace_to_prolog_query (('I' :: 's' :: ' ' :: (w1 ++ (' ' :: (w2 ++ rest)))) ++ ['?']) =
      Except.ok (some (lowerL w2 ++ str "(" ++ lowerL w1 ++ str ")")) := by
  have hw2ne : w2 ++ rest ≠ [] := by
    obtain ⟨a2, t2, hw2e, -, -⟩ := isIdentTok_props hw2
    rw [hw2e]
    simp
  have hfull : stripL (('I' :: 's' :: ' ' :: (w1 ++ (' ' :: (w2 ++ rest)))) ++ ['?']) =
      ('I' :: 's' :: ' ' :: (w1 ++ (' ' :: (w2 ++ rest)))) ++ ['?'] :=
    stripL_no_strip (by decide) (by decide)
  have hglast : ('I' :: 's' :: ' ' :: (w1 ++ (' ' :: (w2 ++ rest)))).getLast? =
      (w2 ++ rest).getLast? := by
    have hw1ne : w1 ++ (' ' :: (w2 ++ rest)) ≠ [] := by
      obtain ⟨a1, t1, hw1e, -, -⟩ := isIdentTok_props hw1
      rw [hw1e]
      simp
    have e1 : ('I' :: 's' :: ' ' :: (w1 ++ (' ' :: (w2 ++ rest)))).getLast? =
        (w1 ++ (' ' :: (w2 ++ rest))).getLast? :=
      getLast?_append_ne (a := ['I', 's', ' ']) hw1ne
    have e2 : (w1 ++ (' ' :: (w2 ++ rest))).getLast? = (' ' :: (w2 ++ rest)).getLast? :=
      getLast?_append_ne (by simp)
    have e3 : (' ' :: (w2 ++ rest)).getLast? = (w2 ++ rest).getLast? :=
      getLast?_append_ne (a := [' ']) hw2ne
    rw [e1, e2, e3]
  have hq : rstripAll '?' (('I' :: 's' :: ' ' :: (w1 ++ (' ' :: (w2 ++ rest)))) ++ ['?']) =
      'I' :: 's' :: ' ' :: (w1 ++ (' ' :: (w2 ++ rest))) := by
    apply rstripAll_append_one
    rw [hglast]
    exact hnq
  have hlow : lowerL ('I' :: 's' :: ' ' :: (w1 ++ (' ' :: (w2 ++ rest)))) =
      'i' :: 's' :: ' ' :: lowerL (w1 ++ (' ' :: (w2 ++ rest))) := rfl
  have hpre : (str "is ").isPrefixOf
      ('i' :: 's' :: ' ' :: lowerL (w1 ++ (' ' :: (w2 ++ rest)))) = true := by
    rw [List.isPrefixOf_iff_prefix]
    rw [show (str "is ") = ['i', 's', ' '] from by decide]
    exact ⟨lowerL (w1 ++ (' ' :: (w2 ++ rest))), rfl⟩
  have hdrop3 : ('i' :: 's' :: ' ' :: lowerL (w1 ++ (' ' :: (w2 ++ rest)))).drop 3 =
      lowerL (w1 ++ (' ' :: (w2 ++ rest))) := rfl
  have hm_elig : matchIsElig ('i' :: 's' :: ' ' :: lowerL (w1 ++ (' ' :: (w2 ++ rest)))) =
      none := by
    unfold matchIsElig
    rw [if_pos hpre, hdrop3]
    apply splitLastDP_eq_none
    cases hin : strIn (str " eligible for ") (lowerL (w1 ++ (' ' :: (w2 ++ rest))))
    · rfl
    · exfalso
      have hup : strIn (str " eligible for ")
          (lowerL ('I' :: 's' :: ' ' :: (w1 ++ (' ' :: (w2 ++ rest))))) = true := by
        rw [hlow]
        exact strIn_append_left (['i', 's', ' ']) hin
      rw [hup] at hel
      exact absurd hel (by simp)
  unfold ace_to_prolog_query
  simp only []
  rw [hfull, hq]
  unfold parse_query_type
  simp only []
  rw [hlow]
  rw [if_pos hpre]
  rw [hm_elig]
  simp only [Option.isSome_none, Bool.false_eq_true, if_false]
  rw [show ('I' :: 's' :: ' ' :: (w1 ++ (' ' :: (w2 ++ rest)))).drop 3 =
        w1 ++ (' ' :: (w2 ++ rest)) from rfl]
  rw [hstrip]
  rw [matchTwoIdents_spec hw1 hw2 hrest]
  show Except.ok (some (normalize_entity w2 ++ str "(" ++ normalize_entity w1 ++ str ")")) =
      Except.ok (some (lowerL w2 ++ str "(" ++ lowerL w1 ++ str ")"))
  have hword1 : ∀ c ∈ w1, wordChar c = true := by
    obtain ⟨a1, t1, hw1e, ha1, ht1⟩ := isIdentTok_props hw1
    rw [hw1e]
    intro c hc
    rcases List.mem_cons.mp hc with h | h
    · subst h
      exact wordChar_of_alpha ha1
    · exact ht1 c h
  have hword2 : ∀ c ∈ w2, wordChar c = true := by
    obtain ⟨a2, t2, hw2e, ha2, ht2⟩ := isIdentTok_props hw2
    rw [hw2e]
    intro c hc
    rcases List.mem_cons.mp hc with h | h
    · subst h
      exact wordChar_of_alpha ha2
    · exact ht2 c h
  rw [normalize_wordTok hword1, normalize_wordTok hword2]

/-- C10 witness: `Is John very happy?` yields `very(john)`, discarding
`happy`. -/
theorem C10_witness :
    ace_to_prolog_query (('I' :: 's' :: ' ' :: (str "John" ++ (' ' :: (str "very" ++
        str " happy")))) ++ ['?']) =
      Except.ok (some (lowerL (str "very") ++ str "(" ++ lowerL (str "John") ++ str ")")) :=
  C10_is_query_first_two_words (str "John") (str "very") (str " happy")
    (by decide) (by decide) (Or.inr ⟨' ', str "happy", rfl, by decide⟩)
    (by decide) (by decide) (by decide)

/-- C4 witness: the amended statement at a conjunction with one failing
conjunct shows the condition still translates (is not `none`). -/
theorem C4_amended_witness :
    parseComplexConditions (str "X likes chocolate and pigs fly") (str "X") ≠ none := by
  intro hnone
  have h := (C4_amended (str "X likes chocolate and pigs fly") (str "X")
    (by decide)).1.mp hnone
  have h2 := h (str "X likes chocolate") (by decide)
  revert h2
  decide
